import Mathlib

/-!
# Verification development for the BeagleBone SPI VFD and nixie cape drivers

Shallow embedding of `drivers/capebus/capes/bone-spi-vfd.c`,
`bone-spi-vfd.h` and of `bonenixie_start` in `bone-nixie-cape.c`.

Modelling conventions
* `u32`, `uint16_t` and `char` values are natural numbers; a `u32` result is
  reduced `% 2 ^ 32` where the C arithmetic can leave the range.
* `1 << n` is `(1 <<< n) % 2 ^ 32`: the bit `n` for `n < 32` (for `n = 31` the
  sign bit of the `int`), and no bit for a larger shift count. C leaves a shift
  by 32 or more undefined; where a pin is not bounded by 32 the functions are
  taken with the word the machine gives for such a shift as a parameter
  (`shl1_with`, `char_to_segment_with`, `segment_mask_with`).
* C arrays reached through a pointer (`info->buf`, `info->digits_cache`,
  `info->digits_mask`, `info->segments_cache`) are functions from the element
  index to the word stored there, so that an access past the nominal length
  is an access to whatever the memory holds there.
* the input of a sysfs write is the list of its `count` bytes together with
  the byte found at index `count`.
-/

namespace BoneSpiVfd

/-! ## bone-spi-vfd.h -/

/-- Number of segments of one digit (`SEGMENT_COUNT`). -/
def SEGMENT_COUNT : Nat := 8

def SEG_A : Nat := 1 <<< 0
def SEG_B : Nat := 1 <<< 1
def SEG_C : Nat := 1 <<< 2
def SEG_D : Nat := 1 <<< 3
def SEG_E : Nat := 1 <<< 4
def SEG_F : Nat := 1 <<< 5
def SEG_G : Nat := 1 <<< 6
def SEG_H : Nat := 1 <<< 7

/-- Error number `EINVAL`. -/
def EINVAL : Int := 22

/-- Error number `ENOMEM`. -/
def ENOMEM : Int := 12

/-- Error number `ENODEV`. -/
def ENODEV : Int := 19

/-- The table `nixie_segment_values[]` (13 entries of type `uint16_t`). -/
def nixie_segment_values : List Nat :=
  [ SEG_A ||| SEG_B ||| SEG_C ||| SEG_D ||| SEG_E ||| SEG_F,
    SEG_B ||| SEG_C,
    SEG_A ||| SEG_B ||| SEG_D ||| SEG_E ||| SEG_G,
    SEG_A ||| SEG_B ||| SEG_C ||| SEG_D ||| SEG_G,
    SEG_B ||| SEG_C ||| SEG_F ||| SEG_G,
    SEG_A ||| SEG_C ||| SEG_D ||| SEG_F ||| SEG_G,
    SEG_A ||| SEG_C ||| SEG_D ||| SEG_E ||| SEG_F ||| SEG_G,
    SEG_A ||| SEG_B ||| SEG_C,
    SEG_A ||| SEG_B ||| SEG_C ||| SEG_D ||| SEG_E ||| SEG_F ||| SEG_G,
    SEG_A ||| SEG_B ||| SEG_C ||| SEG_D ||| SEG_F ||| SEG_G,
    SEG_G,
    SEG_H,
    0 ]

/-- Bytes of a text. -/
def bytes (s : String) : List Nat := s.toList.map Char.toNat

/-- The array `nixie_value_array[] = "0123456789-. "`, its terminating NUL
included (14 bytes). -/
def nixie_value_array : List Nat := bytes "0123456789-. " ++ [0]

/-- Value of `sizeof(nixie_segment_values)`: 13 entries of 2 bytes. -/
def sizeof_nixie_segment_values : Nat := nixie_segment_values.length * 2

/-- Value of `sizeof(nixie_value_array)`: 13 characters and the NUL. -/
def sizeof_nixie_value_array : Nat := nixie_value_array.length

/-- What the read-only data holds behind the two static tables: the
`uint16_t` found at `nixie_segment_values[i]` for `i >= 13` and the `char`
found at `nixie_value_array[i]` for `i >= 14`. -/
structure rodata where
  after_segment_values : Nat → Nat
  after_value_array : Nat → Nat

/-- The C expression `nixie_segment_values[i]`. -/
def nixie_segment_values_at (ro : rodata) (i : Nat) : Nat :=
  nixie_segment_values.getD i (ro.after_segment_values i % 2 ^ 16)

/-- The C expression `nixie_value_array[i]`. -/
def nixie_value_array_at (ro : rodata) (i : Nat) : Nat :=
  nixie_value_array.getD i (ro.after_value_array i % 2 ^ 8)

/-- The fields of `struct bonespivfd_info` the display code uses. -/
structure bonespivfd_info where
  refresh_rate : Int
  buf : Nat → Nat
  digits_cache : Nat → Nat
  digits_mask : Nat → Nat
  max_digits : Nat
  segments_cache : Nat → Nat
  max_segments : Nat

/-! ## bone-spi-vfd.c -/

/-- The C expression `1 << n` taken as a 32-bit word. -/
def shl1 (n : Nat) : Nat := (1 <<< n) % 2 ^ 32

/-- Source function `is_valid_value`: index of `val` among the first
`sizeof(nixie_value_array) - 1` bytes of the array, `-EINVAL` when absent. -/
def is_valid_value (val : Nat) : Int :=
  match (List.range (sizeof_nixie_value_array - 1)).find?
      (fun i => nixie_value_array.getD i 0 == val) with
  | some i => (i : Int)
  | none => -EINVAL

/-- Source function `char_to_segment`. -/
def char_to_segment (info : bonespivfd_info) (digit idx period : Nat) : Nat :=
  let val0 := nixie_segment_values.getD idx 0
  let val1 := if period ≠ 0 then val0 ||| SEG_H else val0
  let val := val1 &&& info.digits_mask digit
  let retval := (List.range SEGMENT_COUNT).foldl
    (fun retval i =>
      if val &&& (1 <<< i) ≠ 0 then retval ||| shl1 (info.segments_cache i) else retval) 0
  retval ||| shl1 (info.digits_cache digit)

/-- First loop of `segment_to_char`: the segment mask read from word `idx`
of the frame buffer. -/
def segment_mask (info : bonespivfd_info) (idx : Nat) : Nat :=
  (List.range SEGMENT_COUNT).foldl
    (fun retval i =>
      let seg := shl1 (info.segments_cache i)
      if seg &&& info.buf idx ≠ 0 then retval ||| (1 <<< i) else retval) 0

/-- The C call `strncat(buf, &val, 1)`: a NUL appends nothing. -/
def strncat1 (buf : List Nat) (val : Nat) : List Nat :=
  if val = 0 then buf else buf ++ [val]

/-- The C expression `retval & ~SEG_H` on a 32-bit word. -/
def clear_SEG_H (retval : Nat) : Nat := retval &&& (2 ^ 32 - 1 - SEG_H)

/-- Source function `segment_to_char`: the text buffer after the call. -/
def segment_to_char (ro : rodata) (info : bonespivfd_info) (buf : List Nat) (idx : Nat) :
    List Nat :=
  let retval := segment_mask info idx
  match (List.range sizeof_nixie_segment_values).find?
      (fun i => nixie_segment_values_at ro i == clear_SEG_H retval) with
  | none => buf
  | some i =>
    let val := nixie_value_array_at ro i
    let buf1 :=
      if val ≠ ' '.toNat ∧ ¬ (retval &&& SEG_H ≠ 0) then strncat1 buf val else buf
    if retval &&& SEG_H ≠ 0 then buf1 ++ bytes "." else buf1

/-- Loop of `bonespivfd_show_display` over the `n` digits `n - 1`, ..., `0`. -/
def show_loop (ro : rodata) (info : bonespivfd_info) : Nat → List Nat → List Nat
  | 0, buf => buf
  | n + 1, buf => show_loop ro info n (segment_to_char ro info buf n)

/-- Source function `bonespivfd_show_display`: the text left in `buf`; the
value returned is its length. -/
def bonespivfd_show_display (ro : rodata) (info : bonespivfd_info) (buf : List Nat) :
    List Nat :=
  show_loop ro info info.max_digits buf ++ bytes "\n"

/-- Local variables of `bonespivfd_store_display` together with the frame
buffer. -/
structure store_state where
  digit : Nat
  period : Nat
  buf : Nat → Nat

/-- One iteration of the scan loop of `bonespivfd_store_display` on the
character `chr`. -/
def store_step (info : bonespivfd_info) (st : store_state) (chr : Nat) : store_state :=
  if chr = '.'.toNat then { st with period := 1 }
  else
    let val := is_valid_value chr
    if val < 0 then st
    else
      let val := char_to_segment info st.digit val.toNat st.period
      -- `val` is an `int`: the test `val < 0` sees the sign bit of the word
      if val ≥ 2 ^ 31 then st
      else { digit := st.digit + 1, period := 0, buf := Function.update st.buf st.digit val }

/-- The scan loop of `bonespivfd_store_display` over the characters `l`, given
in the order the loop visits them. -/
def store_scan (info : bonespivfd_info) (l : List Nat) (st : store_state) : store_state :=
  l.foldl (store_step info) st

/-- The C call `memset(info->buf, 0, sizeof(u32) * info->max_digits)`. -/
def memset_buf (info : bonespivfd_info) : Nat → Nat :=
  fun i => if i < info.max_digits then 0 else info.buf i

/-- Source function `bonespivfd_store_display` on the `count` bytes `buf` with
`last` the byte at index `count`: the device state after the call (the value
returned is `count`). -/
def bonespivfd_store_display (info : bonespivfd_info) (buf : List Nat) (last : Nat) :
    bonespivfd_info :=
  let st := store_scan info (buf ++ [last]).reverse
    { digit := 0, period := 0, buf := memset_buf info }
  if st.period ≠ 0 then
    let val := is_valid_value ('.'.toNat)
    if val < 0 then { info with buf := st.buf }
    else
      let val := char_to_segment info st.digit val.toNat 0
      { info with buf := Function.update st.buf st.digit val }
  else { info with buf := st.buf }

/-- The configuration of the worked example: four digits on pins 8..11,
segments on pins 0..7, full masks. -/
def example_info : bonespivfd_info where
  refresh_rate := 150
  buf := fun _ => 0
  digits_cache := fun i => 8 + i
  digits_mask := fun _ => 0xFF
  max_digits := 4
  segments_cache := fun i => i
  max_segments := 8

/-- The eight segment pins are pairwise distinct and below `bound`. -/
def segments_distinct_below (info : bonespivfd_info) (bound : Nat) : Prop :=
  (∀ i, i < SEGMENT_COUNT → info.segments_cache i < bound) ∧
  (∀ i j, i < SEGMENT_COUNT → j < SEGMENT_COUNT →
    info.segments_cache i = info.segments_cache j → i = j)

/-- All pins in use, the eight segment pins and the `max_digits` digit pins,
are below `bound`. -/
def pins_below (info : bonespivfd_info) (bound : Nat) : Prop :=
  (∀ i, i < SEGMENT_COUNT → info.segments_cache i < bound) ∧
  (∀ d, d < info.max_digits → info.digits_cache d < bound)

/-- The segment mask `char_to_segment` maps to pins: glyph `idx`, with `SEG_H`
when `period` is set, restricted to the mask of the digit. -/
def masked_glyph (info : bonespivfd_info) (digit idx period : Nat) : Nat :=
  (nixie_segment_values.getD idx 0 ||| (if period ≠ 0 then SEG_H else 0)) &&&
    info.digits_mask digit

/-- The twelve characters with a glyph of their own: the alphabet without
the period. -/
def glyph_chars : List Nat := bytes "0123456789- "

/-- The thirteen characters of the alphabet. -/
def alphabet : List Nat := bytes "0123456789-. "

/-- Number of characters of `l` that have a glyph of their own. -/
def count_glyphs (l : List Nat) : Nat := l.countP (fun c => decide (c ∈ glyph_chars))

/-- State of `bonespivfd_store_display` on entry to the scan loop. -/
def store_init (info : bonespivfd_info) : store_state :=
  { digit := 0, period := 0, buf := memset_buf info }

/-- The characters of `s` in front of its first glyph character. -/
def leading_chars (s : List Nat) : List Nat :=
  s.takeWhile (fun c => decide (c ∉ glyph_chars))

/-- The device with the word `w` at index `j` of the frame buffer. -/
def set_buf (info : bonespivfd_info) (j w : Nat) : bonespivfd_info :=
  { info with buf := Function.update info.buf j w }

/-- The text a digit holding glyph `g` with period flag `p` reads back as:
a period when the flag is set or the glyph is the period itself, nothing for
the space, the character of the glyph otherwise. -/
def glyph_text (g p : Nat) : List Nat :=
  if p ≠ 0 ∨ g = 11 then bytes "."
  else if g = 12 then []
  else [nixie_value_array.getD g 0]

/-- Hypotheses on the configuration under which a written text is read back:
segment pins pairwise distinct, digit pins different from the segment pins,
all pins below 31 and every digit mask 0xFF. -/
structure roundtrip_config (info : bonespivfd_info) : Prop where
  segments : segments_distinct_below info 31
  digits_lt : ∀ d, d < info.max_digits → info.digits_cache d < 31
  digits_ne : ∀ d, d < info.max_digits →
    ∀ i, i < SEGMENT_COUNT → info.segments_cache i ≠ info.digits_cache d
  mask_full : ∀ d, d < info.max_digits → info.digits_mask d = 0xFF

/-- The four bytes `buf[0]`, ..., `buf[3]` that `spi_display_update` fills in
for the word `val`. -/
def frame_of_word (val : Nat) : List Nat :=
  [(val >>> 24) &&& 0xff, (val >>> 16) &&& 0xff, (val >>> 8) &&& 0xff, val &&& 0xff]

/-- What one run of `spi_display_update` does: the buffers handed to
`spi_write`, in order, and the delay with which the work is scheduled again
(`none` when it is not). -/
structure update_result where
  frames : List (List Nat)
  rescheduled : Option Int

/-- The `for` loop of `spi_display_update` with `n` iterations to go from
digit `i`, after the buffers `sent`; `spi_write k data` is the value returned
by the call number `k`. The flag tells whether the loop ran to its end. -/
def update_loop (info : bonespivfd_info) (spi_write : Nat → List Nat → Int) :
    Nat → Nat → List (List Nat) → List (List Nat) × Bool
  | 0, _, sent => (sent, true)
  | n + 1, i, sent =>
    let val := info.buf i
    let buf := frame_of_word val
    let retval := spi_write sent.length buf
    if retval ≠ 0 then (sent ++ [buf], false)
    else update_loop info spi_write n (i + 1) (sent ++ [buf])

/-- Source function `spi_display_update`. -/
def spi_display_update (info : bonespivfd_info) (spi_write : Nat → List Nat → Int) :
    update_result :=
  let r := update_loop info spi_write info.max_digits 0 []
  if r.2 = false then { frames := r.1, rescheduled := none }
  else
    let buf := [0, 0, 0, 0]
    let retval := spi_write r.1.length buf
    if retval ≠ 0 then { frames := r.1 ++ [buf], rescheduled := none }
    else { frames := r.1 ++ [buf], rescheduled := some info.refresh_rate }

/-- A property of the device node as the driver sees it: the byte length
`of_find_property` reports, the value `of_property_read_u32_array` returns
for it and the cells it delivers. -/
structure property where
  length : Nat
  read_ret : Int
  cells : Nat → Nat

/-- The device node: the three tables, when present, and the value of
`refresh-rate` when `of_property_read_u32` returns 0 for it. -/
structure device_node where
  digits_idx : Option property
  segments_idx : Option property
  digits_mask : Option property
  refresh_rate : Option Nat

/-- What the kernel answers during `bonespivfd_probe`: whether
`spi_get_device_id` finds an id, whether each `devm_kzalloc` succeeds, the
value returned by `device_create_file`, and the device node. -/
structure probe_env where
  spi_id : Bool
  alloc_info : Bool
  alloc_buf : Bool
  alloc_digits_cache : Bool
  alloc_segments_cache : Bool
  alloc_digits_mask : Bool
  sysfs_ret : Int
  np : Option device_node

/-- A `struct bonespivfd_info` filled with zero bytes, as `devm_kzalloc` and
`memset(info, 0, sizeof(*info))` leave it. -/
def zero_info : bonespivfd_info where
  refresh_rate := 0
  buf := fun _ => 0
  digits_cache := fun _ => 0
  digits_mask := fun _ => 0
  max_digits := 0
  segments_cache := fun _ => 0
  max_segments := 0

/-- Value of an `int` assigned from the `u32` value `v`. -/
def int_of_u32 (v : Nat) : Int :=
  if v % 2 ^ 32 < 2 ^ 31 then ((v % 2 ^ 32 : Nat) : Int) else ((v % 2 ^ 32 : Nat) : Int) - 2 ^ 32

/-- Source function `bonespivfd_parse_dt`: the error code, or the filled-in
`info` when it returns 0. -/
def bonespivfd_parse_dt (env : probe_env) : Except Int bonespivfd_info := do
  let info := zero_info
  let np ← match env.np with
    | none => throw (-ENODEV)
    | some np => pure np
  let prop ← match np.digits_idx with
    | none => throw (-EINVAL)
    | some prop => pure prop
  let info := { info with max_digits := prop.length / 4 }
  let info ←
    if info.max_digits > 0 then
      if env.alloc_digits_cache = false then throw (-ENOMEM)
      else if prop.read_ret < 0 then throw prop.read_ret
      else pure { info with digits_cache := prop.cells }
    else pure info
  let prop ← match np.segments_idx with
    | none => throw (-EINVAL)
    | some prop => pure prop
  let info := { info with max_segments := prop.length / 4 }
  let info ←
    if info.max_segments = SEGMENT_COUNT then
      if env.alloc_segments_cache = false then throw (-ENOMEM)
      else if prop.read_ret < 0 then throw prop.read_ret
      else pure { info with segments_cache := prop.cells }
    else throw (-EINVAL)
  let prop ← match np.digits_mask with
    | none => throw (-EINVAL)
    | some prop => pure prop
  let info ←
    if info.max_digits = prop.length / 4 then
      if env.alloc_digits_mask = false then throw (-ENOMEM)
      else if prop.read_ret < 0 then throw prop.read_ret
      else pure { info with digits_mask := prop.cells }
    else throw (-EINVAL)
  let value : Nat := match np.refresh_rate with
    | some value => value
    | none => 150
  -- `info->refresh_rate = value`: a `u32` stored into an `int`
  pure { info with refresh_rate := int_of_u32 value }

/-- Outcome of `bonespivfd_probe`: the value returned, the driver data
installed on success, and the size in bytes of the allocation installed as
`info->buf`. -/
structure probe_result where
  ret : Int
  info : Option bonespivfd_info
  buf_bytes : Nat

/-- Source function `bonespivfd_probe`. -/
def bonespivfd_probe (env : probe_env) : probe_result :=
  if env.spi_id = false then { ret := -EINVAL, info := none, buf_bytes := 0 }
  else if env.alloc_info = false then { ret := -ENOMEM, info := none, buf_bytes := 0 }
  else
    let info := zero_info
    -- `buf = devm_kzalloc(&spi->dev, sizeof(u32) * info->max_digits, GFP_KERNEL)`
    let buf_bytes := 4 * info.max_digits
    if env.alloc_buf = false then { ret := -ENOMEM, info := none, buf_bytes := 0 }
    else if env.sysfs_ret < 0 then { ret := env.sysfs_ret, info := none, buf_bytes := 0 }
    else
      match bonespivfd_parse_dt env with
      | .error retval => { ret := retval, info := none, buf_bytes := 0 }
      | .ok info => { ret := 0, info := some { info with buf := fun _ => 0 }, buf_bytes := buf_bytes }

/-- A property of `n` cells that reads without error. -/
def property_of_cells (cells : List Nat) : property where
  length := 4 * cells.length
  read_ret := 0
  cells := fun i => cells.getD i 0

/-- The device node of the worked example: four digits on pins 8..11,
segments on pins 0..7, full masks, no `refresh-rate`. -/
def example_node : device_node where
  digits_idx := some (property_of_cells [8, 9, 10, 11])
  segments_idx := some (property_of_cells [0, 1, 2, 3, 4, 5, 6, 7])
  digits_mask := some (property_of_cells [0xFF, 0xFF, 0xFF, 0xFF])
  refresh_rate := none

/-- A probe in which every kernel call succeeds, on the example node. -/
def example_env : probe_env where
  spi_id := true
  alloc_info := true
  alloc_buf := true
  alloc_digits_cache := true
  alloc_segments_cache := true
  alloc_digits_mask := true
  sysfs_ret := 0
  np := some example_node

/-- The worked example with segment G left out of every digit mask. -/
def example_info_no_G : bonespivfd_info := { example_info with digits_mask := fun _ => 0xFF - SEG_G }

/-- Read-only data in which the `uint16_t` at `nixie_segment_values[14]` is
the mask A|B|D|E and the bytes behind `nixie_value_array` are the letter X. -/
def example_rodata : rodata where
  after_segment_values := fun i => if i = 14 then SEG_A ||| SEG_B ||| SEG_D ||| SEG_E else 0
  after_value_array := fun _ => 'X'.toNat

/-- The conditions under which `bonespivfd_parse_dt` reaches its `return 0`:
the node and the three tables are there, every table that is read is read
without error and every allocation made succeeds, `segments-idx` has 8 cells
and `digits-mask` as many cells as `digits-idx`; `digits-idx` is read, and
`digits_cache` allocated, only when it has a cell. -/
def parse_dt_accepts (env : probe_env) : Prop :=
  ∃ np di si dm, env.np = some np ∧ np.digits_idx = some di ∧
    np.segments_idx = some si ∧ np.digits_mask = some dm ∧
    (0 < di.length / 4 → env.alloc_digits_cache = true ∧ 0 ≤ di.read_ret) ∧
    si.length / 4 = 8 ∧ env.alloc_segments_cache = true ∧ 0 ≤ si.read_ret ∧
    dm.length / 4 = di.length / 4 ∧ env.alloc_digits_mask = true ∧ 0 ≤ dm.read_ret

/-- The device tree as the specification wants it: the node and the three
tables present and readable, 8 cells in `segments-idx`, as many cells in
`digits-mask` as in `digits-idx`. -/
def dt_well_formed (env : probe_env) : Prop :=
  ∃ np di si dm, env.np = some np ∧ np.digits_idx = some di ∧
    np.segments_idx = some si ∧ np.digits_mask = some dm ∧
    0 ≤ di.read_ret ∧ 0 ≤ si.read_ret ∧ 0 ≤ dm.read_ret ∧
    si.length / 4 = 8 ∧ dm.length / 4 = di.length / 4

/-- Value returned by `bonespivfd_parse_dt`. -/
def bonespivfd_parse_dt_ret (env : probe_env) : Int :=
  match bonespivfd_parse_dt env with
  | .ok _ => 0
  | .error retval => retval

/-- One run of `spi_display_update` with the device state it leaves: the
function stores into no field of `info` that the display code reads. -/
def spi_display_update_call (info : bonespivfd_info) (spi_write : Nat → List Nat → Int) :
    bonespivfd_info × update_result :=
  (info, spi_display_update info spi_write)

/-- All the buffers one run of `spi_display_update` hands to `spi_write` when
no write fails: one per digit and the blanking buffer. -/
def all_frames (info : bonespivfd_info) : List (List Nat) :=
  (List.range info.max_digits).map (fun i => frame_of_word (info.buf i)) ++ [[0, 0, 0, 0]]

/-- What a call of `bonespivfd_show_display` leaves: the device state, the
text in `buf` and the value returned, `strlen(buf)`. -/
structure show_result where
  info : bonespivfd_info
  buf : List Nat
  ret : Nat

/-- Source function `bonespivfd_show_display` as a call: it stores into no
field of `info`. -/
def bonespivfd_show_display_call (ro : rodata) (info : bonespivfd_info) (buf : List Nat) :
    show_result where
  info := info
  buf := bonespivfd_show_display ro info buf
  ret := (bonespivfd_show_display ro info buf).length

/-- The device with `b` as the content of the frame buffer memory. -/
def with_buf (info : bonespivfd_info) (b : Nat → Nat) : bonespivfd_info :=
  { info with buf := b }

/-- The scan of `bonespivfd_store_display` restricted to the indices
`count - 1` down to `0` of the input, the bound `[0, length)`. -/
def store_display_bounded (info : bonespivfd_info) (buf : List Nat) : bonespivfd_info :=
  let st := store_scan info buf.reverse (store_init info)
  if st.period ≠ 0 then
    let val := is_valid_value '.'.toNat
    if val < 0 then { info with buf := st.buf }
    else
      let val := char_to_segment info st.digit val.toNat 0
      { info with buf := Function.update st.buf st.digit val }
  else { info with buf := st.buf }

/-- The segment pattern the comment of each row of `nixie_segment_values`
names the character of; 0 for a character without a row. -/
def glyph_of_char (c : Nat) : Nat :=
  if c = '0'.toNat then SEG_A ||| SEG_B ||| SEG_C ||| SEG_D ||| SEG_E ||| SEG_F
  else if c = '1'.toNat then SEG_B ||| SEG_C
  else if c = '2'.toNat then SEG_A ||| SEG_B ||| SEG_D ||| SEG_E ||| SEG_G
  else if c = '3'.toNat then SEG_A ||| SEG_B ||| SEG_C ||| SEG_D ||| SEG_G
  else if c = '4'.toNat then SEG_B ||| SEG_C ||| SEG_F ||| SEG_G
  else if c = '5'.toNat then SEG_A ||| SEG_C ||| SEG_D ||| SEG_F ||| SEG_G
  else if c = '6'.toNat then SEG_A ||| SEG_C ||| SEG_D ||| SEG_E ||| SEG_F ||| SEG_G
  else if c = '7'.toNat then SEG_A ||| SEG_B ||| SEG_C
  else if c = '8'.toNat then SEG_A ||| SEG_B ||| SEG_C ||| SEG_D ||| SEG_E ||| SEG_F ||| SEG_G
  else if c = '9'.toNat then SEG_A ||| SEG_B ||| SEG_C ||| SEG_D ||| SEG_F ||| SEG_G
  else if c = '-'.toNat then SEG_G
  else if c = '.'.toNat then SEG_H
  else 0

/-- The worked example with segment G wired to pin 31. -/
def example_info_G31 : bonespivfd_info := { example_info with segments_cache := fun i => if i = 6 then 31 else i }

/-- The example environment in which the allocation of `digits_cache`
fails. -/
def example_env_nomem : probe_env := { example_env with alloc_digits_cache := false }

/-- A device node whose `digits-idx` and `digits-mask` hold no cell and whose
`digits-idx` cannot be read. -/
def empty_digits_node : device_node where
  digits_idx := some { length := 0, read_ret := -61, cells := fun _ => 0 }
  segments_idx := some (property_of_cells [0, 1, 2, 3, 4, 5, 6, 7])
  digits_mask := some (property_of_cells [])
  refresh_rate := some (2 ^ 31)

/-- The example environment on the node without digits. -/
def example_env_empty : probe_env := { example_env with np := some empty_digits_node }

/-- Read-only data with zeroes behind the tables. -/
def zero_rodata : rodata := ⟨fun _ => 0, fun _ => 0⟩


/-- The C expression `1 << n` taken as a 32-bit word on a machine that gives
the word `over n` for a shift count of 32 or more, which C leaves
undefined. -/
def shl1_with (over : Nat → Nat) (n : Nat) : Nat :=
  if n < 32 then 1 <<< n else over n % 2 ^ 32

/-- Source function `char_to_segment`, with `over` for the shifts by 32 or
more. -/
def char_to_segment_with (over : Nat → Nat) (info : bonespivfd_info)
    (digit idx period : Nat) : Nat :=
  let val0 := nixie_segment_values.getD idx 0
  let val1 := if period ≠ 0 then val0 ||| SEG_H else val0
  let val := val1 &&& info.digits_mask digit
  let retval := (List.range SEGMENT_COUNT).foldl
    (fun retval i =>
      if val &&& (1 <<< i) ≠ 0 then retval ||| shl1_with over (info.segments_cache i)
      else retval) 0
  retval ||| shl1_with over (info.digits_cache digit)

/-- First loop of `segment_to_char`, with `over` for the shifts by 32 or
more. -/
def segment_mask_with (over : Nat → Nat) (info : bonespivfd_info) (idx : Nat) : Nat :=
  (List.range SEGMENT_COUNT).foldl
    (fun retval i =>
      let seg := shl1_with over (info.segments_cache i)
      if seg &&& info.buf idx ≠ 0 then retval ||| (1 <<< i) else retval) 0

/-- The word `1 << n` of a processor that takes the shift count modulo 32. -/
def shift_mod_32 (n : Nat) : Nat := 1 <<< (n % 32)

/-- The worked example with the digits wired to the pins 33, 34, 35, 36. -/
def example_info_pin33 : bonespivfd_info := { example_info with digits_cache := fun i => 33 + i }

/-- The index at which one iteration of the scan loop of
`bonespivfd_store_display` executes `info->buf[digit] = val`, `none` when the
iteration does not get there. -/
def store_step_writes (info : bonespivfd_info) (st : store_state) (chr : Nat) : Option Nat :=
  if chr = '.'.toNat then none
  else
    let val := is_valid_value chr
    if val < 0 then none
    else
      let val := char_to_segment info st.digit val.toNat st.period
      if val ≥ 2 ^ 31 then none
      else some st.digit

/-- The indices the scan loop stores at, in order, over the characters `l`
from the state `st`. -/
def store_scan_writes (info : bonespivfd_info) : List Nat → store_state → List Nat
  | [], _ => []
  | c :: l, st =>
    (store_step_writes info st c).toList ++ store_scan_writes info l (store_step info st c)

/-- The indices of `info->buf` that `bonespivfd_store_display` stores at after
its `memset`: those of the scan loop and the one of the leading period. -/
def store_display_writes (info : bonespivfd_info) (buf : List Nat) (last : Nat) : List Nat :=
  let st := store_scan info (buf ++ [last]).reverse (store_init info)
  store_scan_writes info (buf ++ [last]).reverse (store_init info) ++
    (if st.period ≠ 0 then (if is_valid_value '.'.toNat < 0 then [] else [st.digit]) else [])

/-! ## bone-nixie-cape.c -/

/-- Value of a `u32` assigned from the `int` value `x`. -/
def u32_of_int (x : Int) : Nat := (x % 2 ^ 32).toNat

/-- The `int` that holds the 32 low bits of the integer `x`. -/
def wrap_int32 (x : Int) : Int := int_of_u32 (x % 2 ^ 32).toNat

/-- The fields of `struct bone_nixie_info` that `bonenixie_start` uses. -/
structure bone_nixie_info where
  pwm_frequency : Int
  pwm_duty_cycle : Int
  run : Int

/-- What a call of `bonenixie_start` leaves: the value returned, the driver
data, and the `duty` and `period` handed to `pwm_config` (`none` without a
call). -/
structure nixie_start_result where
  ret : Int
  info : bone_nixie_info
  pwm_config : Option (Int × Int)

/-- Source function `bonenixie_start`. The period is the `u64` quotient of
`div_u64`, whose divisor is a `u32`, stored into an `int`; the product
`period * info->pwm_duty_cycle` is an `int` product, kept to its 32 low bits,
and `/ 100` rounds towards zero. -/
def bonenixie_start (info : bone_nixie_info) : nixie_start_result :=
  if info.run ≠ 0 then { ret := 0, info := info, pwm_config := none }
  else if info.pwm_frequency < 1000 ∨ info.pwm_frequency > 50000 then
    { ret := -EINVAL, info := info, pwm_config := none }
  else if info.pwm_duty_cycle > 80 then
    { ret := -EINVAL, info := info, pwm_config := none }
  else
    let period := int_of_u32 (1000000000 / u32_of_int info.pwm_frequency)
    let duty := (wrap_int32 (period * info.pwm_duty_cycle)).tdiv 100
    { ret := 0, info := { info with run := 1 }, pwm_config := some (duty, period) }

/-- The lines of `bonenixie_probe` that fill in the PWM parameters: each is
the `u32` read from its property, or the default when the read fails, stored
into an `int`; `run` is 0 in the zeroed driver data. -/
def bonenixie_probe_params (pwm_frequency pwm_duty_cycle : Option Nat) : bone_nixie_info where
  pwm_frequency := int_of_u32 (pwm_frequency.getD 9250)
  pwm_duty_cycle := int_of_u32 (pwm_duty_cycle.getD 35)
  run := 0

/-! ## Bit-level lemmas -/

theorem shl1_of_lt {n : Nat} (h : n < 32) : shl1 n = 2 ^ n := by
  unfold shl1
  rw [Nat.one_shiftLeft]
  exact Nat.mod_eq_of_lt (Nat.pow_lt_pow_right (by decide) h)

theorem shl1_lt (n : Nat) : shl1 n < 2 ^ 32 := by
  unfold shl1
  exact Nat.mod_lt _ (by decide)

theorem testBit_shl1 (n b : Nat) : (shl1 n).testBit b = (decide (b < 32) && decide (n = b)) := by
  unfold shl1
  rw [Nat.one_shiftLeft, Nat.testBit_mod_two_pow, Nat.testBit_two_pow]

theorem and_ne_zero_iff_testBit (w k : Nat) : 2 ^ k &&& w ≠ 0 ↔ w.testBit k = true := by
  constructor
  · intro h
    by_contra hb
    apply h
    apply Nat.eq_of_testBit_eq
    intro i
    simp only [Nat.testBit_and, Nat.testBit_two_pow, Nat.zero_testBit]
    by_cases hik : k = i
    · subst hik; simp [hb]
    · simp [hik]
  · intro hb h
    have := congrArg (fun x => x.testBit k) h
    simp [Nat.testBit_two_pow, hb] at this

theorem and_shiftLeft_ne_zero_iff (v i : Nat) : v &&& (1 <<< i) ≠ 0 ↔ v.testBit i = true := by
  rw [Nat.one_shiftLeft, Nat.and_comm]
  exact and_ne_zero_iff_testBit v i

/-- Bits of the word built by the loop of `char_to_segment`. -/
theorem testBit_encode_fold (seg : Nat → Nat) (val b : Nat) (l : List Nat) (r : Nat) :
    (l.foldl (fun retval i =>
        if val &&& (1 <<< i) ≠ 0 then retval ||| shl1 (seg i) else retval) r).testBit b
      = (r.testBit b || l.any (fun i => val.testBit i && (shl1 (seg i)).testBit b)) := by
  induction l generalizing r with
  | nil => simp
  | cons i l ih =>
    rw [List.foldl_cons, ih, List.any_cons]
    by_cases h : val.testBit i = true
    · rw [if_pos ((and_shiftLeft_ne_zero_iff val i).2 h), Nat.testBit_or, h]
      simp [Bool.or_assoc]
    · rw [if_neg (fun hc => h ((and_shiftLeft_ne_zero_iff val i).1 hc))]
      simp [h]

/-- Bits of the mask built by the first loop of `segment_to_char`. -/
theorem testBit_decode_fold (seg : Nat → Nat) (w b : Nat) (l : List Nat) (r : Nat) :
    (l.foldl (fun retval i =>
        let s := shl1 (seg i)
        if s &&& w ≠ 0 then retval ||| (1 <<< i) else retval) r).testBit b
      = (r.testBit b || l.any (fun i => decide (shl1 (seg i) &&& w ≠ 0) && decide (i = b))) := by
  induction l generalizing r with
  | nil => simp
  | cons i l ih =>
    rw [List.foldl_cons, ih, List.any_cons]
    by_cases h : shl1 (seg i) &&& w = 0
    · simp [h]
    · simp [h, Nat.testBit_or, Nat.one_shiftLeft, Nat.testBit_two_pow, Bool.or_assoc]

theorem any_range_and_eq (n b : Nat) (P : Nat → Bool) :
    (List.range n).any (fun i => P i && decide (i = b)) = (decide (b < n) && P b) := by
  rw [Bool.eq_iff_iff]
  simp only [List.any_eq_true, List.mem_range, Bool.and_eq_true, decide_eq_true_eq]
  constructor
  · rintro ⟨i, hi, hp, rfl⟩
    exact ⟨hi, hp⟩
  · rintro ⟨hb, hp⟩
    exact ⟨b, hb, hp, rfl⟩

theorem char_to_segment_eq (info : bonespivfd_info) (digit idx period : Nat) :
    char_to_segment info digit idx period =
      ((List.range SEGMENT_COUNT).foldl (fun retval i =>
        if masked_glyph info digit idx period &&& (1 <<< i) ≠ 0
        then retval ||| shl1 (info.segments_cache i) else retval) 0) |||
        shl1 (info.digits_cache digit) := by
  unfold char_to_segment masked_glyph
  by_cases hp : period = 0 <;> simp [hp]

/-- Bit `segments_cache[b]` of an encoded word is bit `b` of the masked glyph. -/
theorem testBit_char_to_segment (info : bonespivfd_info) (digit idx period b : Nat)
    (hseg : segments_distinct_below info 32)
    (hdig : ∀ i, i < SEGMENT_COUNT → info.segments_cache i ≠ info.digits_cache digit)
    (hb : b < SEGMENT_COUNT) :
    (char_to_segment info digit idx period).testBit (info.segments_cache b) =
      (masked_glyph info digit idx period).testBit b := by
  rw [char_to_segment_eq, Nat.testBit_or, testBit_encode_fold, testBit_shl1]
  have h1 : decide (info.digits_cache digit = info.segments_cache b) = false := by
    simp only [decide_eq_false_iff_not]
    exact fun h => hdig b hb h.symm
  have h2 : (List.range SEGMENT_COUNT).any (fun i =>
        (masked_glyph info digit idx period).testBit i &&
          (shl1 (info.segments_cache i)).testBit (info.segments_cache b))
      = (List.range SEGMENT_COUNT).any (fun i =>
        (masked_glyph info digit idx period).testBit i && decide (i = b)) := by
    rw [Bool.eq_iff_iff]
    simp only [List.any_eq_true, List.mem_range, Bool.and_eq_true, decide_eq_true_eq,
      testBit_shl1]
    constructor
    · rintro ⟨i, hi, hp, -, he⟩
      exact ⟨i, hi, hp, hseg.2 i b hi hb he⟩
    · rintro ⟨i, hi, hp, rfl⟩
      exact ⟨i, hi, hp, hseg.1 i hi, rfl⟩
  rw [h1, h2, any_range_and_eq]
  simp [hb]

/-- The mask read back from a word in terms of the bits of the word. -/
theorem testBit_segment_mask (info : bonespivfd_info) (idx b : Nat)
    (hlt : ∀ i, i < SEGMENT_COUNT → info.segments_cache i < 32) :
    (segment_mask info idx).testBit b =
      (decide (b < SEGMENT_COUNT) && (info.buf idx).testBit (info.segments_cache b)) := by
  unfold segment_mask
  rw [testBit_decode_fold, any_range_and_eq, Nat.zero_testBit, Bool.false_or]
  by_cases hb : b < SEGMENT_COUNT
  · simp only [hb, decide_True, Bool.true_and]
    rw [shl1_of_lt (hlt b hb), Bool.eq_iff_iff, decide_eq_true_eq]
    exact and_ne_zero_iff_testBit _ _
  · simp [hb]

/-- Decoding an encoded word gives the low eight bits of the masked glyph. -/
theorem segment_mask_char_to_segment (info dev : bonespivfd_info) (digit idx period j : Nat)
    (hseg : segments_distinct_below info 32)
    (hdig : ∀ i, i < SEGMENT_COUNT → info.segments_cache i ≠ info.digits_cache digit)
    (hsame : dev.segments_cache = info.segments_cache)
    (hw : dev.buf j = char_to_segment info digit idx period) :
    segment_mask dev j = masked_glyph info digit idx period &&& 0xFF := by
  apply Nat.eq_of_testBit_eq
  intro b
  rw [testBit_segment_mask dev j b (by rw [hsame]; exact hseg.1), hw, hsame, Nat.testBit_and]
  have h255 : (0xFF : Nat) = 2 ^ 8 - 1 := by norm_num
  rw [h255, Nat.testBit_two_pow_sub_one]
  by_cases hb : b < SEGMENT_COUNT
  · rw [testBit_char_to_segment info digit idx period b hseg hdig hb]
    have hb8 : b < 8 := hb
    simp [hb, hb8]
  · have hb8 : ¬ b < 8 := hb
    simp [hb, hb8]

/-! ## The glyph tables -/

theorem alphabet_eq : alphabet = [48, 49, 50, 51, 52, 53, 54, 55, 56, 57, 45, 46, 32] := by
  decide

theorem glyph_chars_eq : glyph_chars = [48, 49, 50, 51, 52, 53, 54, 55, 56, 57, 45, 32] := by
  decide

theorem nixie_value_array_eq :
    nixie_value_array = [48, 49, 50, 51, 52, 53, 54, 55, 56, 57, 45, 46, 32, 0] := by
  decide

theorem mem_alphabet_iff (c : Nat) : c ∈ alphabet ↔ c ∈ glyph_chars ∨ c = 46 := by
  rw [alphabet_eq, glyph_chars_eq]
  simp only [List.mem_cons, List.mem_singleton, List.mem_nil_iff, or_false]
  tauto

theorem is_valid_value_of_mem (c : Nat) (h : c ∈ alphabet) :
    is_valid_value c = (nixie_value_array.indexOf c : Nat) := by
  rw [alphabet_eq] at h
  simp only [List.mem_cons, List.mem_singleton, List.mem_nil_iff, or_false] at h
  rcases h with h | h | h | h | h | h | h | h | h | h | h | h | h <;> subst h <;> decide

theorem is_valid_value_of_not_mem (c : Nat) (h : c ∉ alphabet) :
    is_valid_value c = -EINVAL := by
  have hnone : (List.range (sizeof_nixie_value_array - 1)).find?
      (fun i => nixie_value_array.getD i 0 == c) = none := by
    rw [List.find?_eq_none]
    intro i hi
    have hi13 : i < 13 := by simpa [sizeof_nixie_value_array, nixie_value_array_eq] using hi
    have hmem : nixie_value_array.getD i 0 ∈ alphabet := by
      rw [nixie_value_array_eq, alphabet_eq]
      interval_cases i <;> simp
    intro he
    apply h
    rw [beq_iff_eq] at he
    rw [← he]
    exact hmem
  unfold is_valid_value
  rw [hnone]

/-! ## The scan loop of `bonespivfd_store_display` -/

theorem period_code : '.'.toNat = 46 := rfl

theorem space_code : ' '.toNat = 32 := rfl

theorem period_not_glyph : 46 ∉ glyph_chars := by
  rw [glyph_chars_eq]; decide

theorem glyph_mem_alphabet {c : Nat} (h : c ∈ glyph_chars) : c ∈ alphabet :=
  (mem_alphabet_iff c).2 (Or.inl h)

theorem glyph_ne_period {c : Nat} (h : c ∈ glyph_chars) : c ≠ 46 :=
  fun he => period_not_glyph (he ▸ h)

theorem store_step_period (info : bonespivfd_info) (st : store_state) :
    store_step info st 46 = { st with period := 1 } := by
  unfold store_step
  rw [period_code, if_pos rfl]

theorem store_step_skip (info : bonespivfd_info) (st : store_state) (c : Nat)
    (h : c ∉ alphabet) : store_step info st c = st := by
  have hne : c ≠ 46 := fun he => h ((mem_alphabet_iff c).2 (Or.inr he))
  unfold store_step
  rw [period_code, if_neg hne, is_valid_value_of_not_mem c h]
  simp [EINVAL]

theorem store_step_glyph (info : bonespivfd_info) (st : store_state) (c : Nat)
    (h : c ∈ glyph_chars) :
    store_step info st c =
      if char_to_segment info st.digit (nixie_value_array.indexOf c) st.period ≥ 2 ^ 31 then st
      else { digit := st.digit + 1, period := 0,
             buf := Function.update st.buf st.digit
               (char_to_segment info st.digit (nixie_value_array.indexOf c) st.period) } := by
  unfold store_step
  rw [period_code, if_neg (glyph_ne_period h), is_valid_value_of_mem c (glyph_mem_alphabet h)]
  simp

theorem char_to_segment_lt (info : bonespivfd_info) (digit idx period n : Nat)
    (hseg : ∀ i, i < SEGMENT_COUNT → info.segments_cache i < n)
    (hdig : info.digits_cache digit < n) :
    char_to_segment info digit idx period < 2 ^ n := by
  apply Nat.lt_pow_two_of_testBit
  intro b hb
  rw [char_to_segment_eq, Nat.testBit_or, testBit_encode_fold, testBit_shl1, Nat.zero_testBit]
  have h1 : decide (info.digits_cache digit = b) = false := by
    simp only [decide_eq_false_iff_not]; omega
  have h2 : (List.range SEGMENT_COUNT).any (fun i =>
      (masked_glyph info digit idx period).testBit i &&
        (shl1 (info.segments_cache i)).testBit b) = false := by
    rw [List.any_eq_false]
    intro i hi
    have hlt := hseg i (List.mem_range.1 hi)
    have : decide (info.segments_cache i = b) = false := by
      simp only [decide_eq_false_iff_not]; omega
    simp [testBit_shl1, this]
  simp [h1, h2]

theorem store_step_glyph_ok (info : bonespivfd_info) (st : store_state) (c : Nat)
    (hp : pins_below info 31) (hd : st.digit < info.max_digits) (h : c ∈ glyph_chars) :
    store_step info st c =
      { digit := st.digit + 1, period := 0,
        buf := Function.update st.buf st.digit
          (char_to_segment info st.digit (nixie_value_array.indexOf c) st.period) } := by
  rw [store_step_glyph info st c h, if_neg]
  exact Nat.not_le.2 (char_to_segment_lt info _ _ _ 31 hp.1 (hp.2 _ hd))

theorem store_scan_nil (info : bonespivfd_info) (st : store_state) :
    store_scan info [] st = st := rfl

theorem store_scan_cons (info : bonespivfd_info) (c : Nat) (l : List Nat) (st : store_state) :
    store_scan info (c :: l) st = store_scan info l (store_step info st c) := rfl

theorem store_scan_append (info : bonespivfd_info) (l₁ l₂ : List Nat) (st : store_state) :
    store_scan info (l₁ ++ l₂) st = store_scan info l₂ (store_scan info l₁ st) := by
  unfold store_scan
  rw [List.foldl_append]

/-- Characters without a glyph of their own leave digit index and frame
buffer alone; a period among them raises the period flag. -/
theorem store_scan_no_glyph (info : bonespivfd_info) (l : List Nat) (st : store_state)
    (h : ∀ c, c ∈ l → c ∉ glyph_chars) :
    store_scan info l st = { st with period := if 46 ∈ l then 1 else st.period } := by
  induction l generalizing st with
  | nil => simp [store_scan_nil]
  | cons c l ih =>
    have hl : ∀ c, c ∈ l → c ∉ glyph_chars := fun x hx => h x (List.mem_cons_of_mem _ hx)
    rw [store_scan_cons, ih _ hl]
    by_cases hc : c = 46
    · subst hc
      rw [store_step_period]
      simp
    · have hna : c ∉ alphabet := by
        rw [mem_alphabet_iff]
        rintro (hg | he)
        · exact h c (List.mem_cons_self _ _) hg
        · exact hc he
      rw [store_step_skip info st c hna]
      have : (46 ∈ c :: l) ↔ 46 ∈ l := by
        simp only [List.mem_cons]
        constructor
        · rintro (he | hm)
          · exact absurd he.symm hc
          · exact hm
        · exact Or.inr
      simp only [this]

theorem store_step_frame (info : bonespivfd_info) (st : store_state) (c : Nat) :
    st.digit ≤ (store_step info st c).digit ∧
      ∀ j, j < st.digit → (store_step info st c).buf j = st.buf j := by
  by_cases hc : c = 46
  · subst hc
    rw [store_step_period]
    exact ⟨le_refl _, fun _ _ => rfl⟩
  · by_cases hg : c ∈ glyph_chars
    · rw [store_step_glyph info st c hg]
      split_ifs
      · exact ⟨le_refl _, fun _ _ => rfl⟩
      · refine ⟨Nat.le_succ _, fun j hj => ?_⟩
        exact Function.update_noteq (Nat.ne_of_lt hj) _ _
    · have hna : c ∉ alphabet := by
        rw [mem_alphabet_iff]
        rintro (h | h)
        · exact hg h
        · exact hc h
      rw [store_step_skip info st c hna]
      exact ⟨le_refl _, fun _ _ => rfl⟩

/-- The scan never moves the digit index down and never writes below it. -/
theorem store_scan_frame (info : bonespivfd_info) (l : List Nat) (st : store_state) :
    st.digit ≤ (store_scan info l st).digit ∧
      ∀ j, j < st.digit → (store_scan info l st).buf j = st.buf j := by
  induction l generalizing st with
  | nil => exact ⟨le_refl _, fun _ _ => rfl⟩
  | cons c l ih =>
    rw [store_scan_cons]
    have h1 := store_step_frame info st c
    have h2 := ih (store_step info st c)
    refine ⟨le_trans h1.1 h2.1, fun j hj => ?_⟩
    rw [h2.2 j (lt_of_lt_of_le hj h1.1), h1.2 j hj]

theorem count_glyphs_cons (c : Nat) (l : List Nat) :
    count_glyphs (c :: l) = count_glyphs l + (if c ∈ glyph_chars then 1 else 0) := by
  unfold count_glyphs
  rw [List.countP_cons]
  simp

theorem count_glyphs_append (l₁ l₂ : List Nat) :
    count_glyphs (l₁ ++ l₂) = count_glyphs l₁ + count_glyphs l₂ := by
  unfold count_glyphs
  rw [List.countP_append]

theorem count_glyphs_reverse (l : List Nat) : count_glyphs l.reverse = count_glyphs l := by
  unfold count_glyphs
  rw [List.countP_eq_length_filter, List.countP_eq_length_filter, List.filter_reverse,
    List.length_reverse]

theorem count_glyphs_of_no_glyph (l : List Nat) (h : ∀ c, c ∈ l → c ∉ glyph_chars) :
    count_glyphs l = 0 := by
  unfold count_glyphs
  rw [List.countP_eq_zero]
  intro c hc
  simpa using h c hc

/-- With all pins below 31 and room left in the frame buffer every glyph
character advances the digit index, and nothing is written at or above the
final index. -/
theorem store_scan_digit (info : bonespivfd_info) (l : List Nat) (st : store_state)
    (hp : pins_below info 31) (hk : st.digit + count_glyphs l ≤ info.max_digits) :
    (store_scan info l st).digit = st.digit + count_glyphs l ∧
      ∀ j, st.digit + count_glyphs l ≤ j → (store_scan info l st).buf j = st.buf j := by
  induction l generalizing st with
  | nil => exact ⟨rfl, fun _ _ => rfl⟩
  | cons c l ih =>
    rw [store_scan_cons]
    rw [count_glyphs_cons] at hk ⊢
    by_cases hg : c ∈ glyph_chars
    · rw [if_pos hg] at hk ⊢
      rw [store_step_glyph_ok info st c hp (by omega) hg]
      have h := ih (store_state.mk (st.digit + 1) 0 (Function.update st.buf st.digit
          (char_to_segment info st.digit (nixie_value_array.indexOf c) st.period)))
        (by simp only; omega)
      simp only at h
      refine ⟨by rw [h.1]; omega, fun j hj => ?_⟩
      rw [h.2 j (by omega)]
      exact Function.update_noteq (by omega) _ _
    · rw [if_neg hg] at hk ⊢
      have hs : store_step info st c = { st with period := if c = 46 then 1 else st.period } := by
        have := store_scan_no_glyph info [c] st (by simpa using hg)
        rw [store_scan_cons, store_scan_nil] at this
        rw [this]
        simp [eq_comm]
      rw [hs]
      have h := ih { st with period := if c = 46 then 1 else st.period } (by simpa using hk)
      simpa using h

/-- After a glyph character has been stored the period flag is down. -/
theorem store_scan_period_after_glyph (info : bonespivfd_info) (l : List Nat) (c : Nat)
    (st : store_state) (hp : pins_below info 31) (hc : c ∈ glyph_chars)
    (hk : st.digit + count_glyphs (l ++ [c]) ≤ info.max_digits) :
    (store_scan info (l ++ [c]) st).period = 0 := by
  rw [store_scan_append, store_scan_cons, store_scan_nil]
  rw [count_glyphs_append, count_glyphs_cons, if_pos hc] at hk
  have hd := (store_scan_digit info l st hp (by omega)).1
  rw [store_step_glyph_ok info _ c hp (by rw [hd]; simp [count_glyphs] at hk ⊢; omega) hc]

theorem nul_not_alphabet : 0 ∉ alphabet := by
  rw [alphabet_eq]; decide

theorem nul_not_glyph : 0 ∉ glyph_chars := fun h => nul_not_alphabet (glyph_mem_alphabet h)

theorem is_valid_value_period : is_valid_value '.'.toNat = 11 := by decide

/-- Frame buffer left by `bonespivfd_store_display` in terms of the state at
the end of the scan loop. -/
theorem store_display_buf (info : bonespivfd_info) (s : List Nat) (last j : Nat) :
    (bonespivfd_store_display info s last).buf j =
      if (store_scan info (last :: s.reverse) (store_init info)).period ≠ 0 ∧
          j = (store_scan info (last :: s.reverse) (store_init info)).digit
      then char_to_segment info (store_scan info (last :: s.reverse) (store_init info)).digit 11 0
      else (store_scan info (last :: s.reverse) (store_init info)).buf j := by
  unfold bonespivfd_store_display
  rw [List.reverse_append, List.reverse_singleton, List.singleton_append, is_valid_value_period]
  simp only [store_init]
  by_cases hper : (store_scan info (last :: s.reverse)
      { digit := 0, period := 0, buf := memset_buf info }).period = 0
  · simp [hper]
  · by_cases hj : j = (store_scan info (last :: s.reverse)
        { digit := 0, period := 0, buf := memset_buf info }).digit
    · simp [hper, hj]
    · simp [hper, hj, Function.update_noteq hj]

/-- State of the scan after the terminating NUL and a tail `b` of the input
that is empty or starts with a glyph character. -/
theorem store_scan_tail (info : bonespivfd_info) (b : List Nat) (hp : pins_below info 31)
    (hb : ∀ x, b.head? = some x → x ∈ glyph_chars) (hk : count_glyphs b ≤ info.max_digits) :
    (store_scan info (0 :: b.reverse) (store_init info)).digit = count_glyphs b ∧
    (store_scan info (0 :: b.reverse) (store_init info)).period = 0 ∧
    ∀ j, count_glyphs b ≤ j →
      (store_scan info (0 :: b.reverse) (store_init info)).buf j = memset_buf info j := by
  have hcount : count_glyphs (0 :: b.reverse) = count_glyphs b := by
    rw [count_glyphs_cons, if_neg nul_not_glyph, count_glyphs_reverse, Nat.add_zero]
  have hd := store_scan_digit info (0 :: b.reverse) (store_init info) hp
    (by rw [hcount]; simpa [store_init] using hk)
  rw [hcount] at hd
  have hd1 : (store_scan info (0 :: b.reverse) (store_init info)).digit = count_glyphs b := by
    simpa [store_init] using hd.1
  refine ⟨hd1, ?_, fun j hj => ?_⟩
  · cases b with
    | nil =>
      rw [List.reverse_nil, store_scan_cons, store_scan_nil,
        store_step_skip info _ 0 nul_not_alphabet]
      rfl
    | cons x b =>
      have hx : x ∈ glyph_chars := hb x rfl
      have hl : 0 :: (x :: b).reverse = (0 :: b.reverse) ++ [x] := by simp
      rw [hl]
      apply store_scan_period_after_glyph info _ x _ hp hx
      rw [← hl, hcount]
      simpa [store_init] using hk
  · have := hd.2 j (by simpa [store_init] using hj)
    simpa [store_init] using this

theorem leading_chars_no_glyph (s : List Nat) : ∀ c, c ∈ leading_chars s → c ∉ glyph_chars := by
  intro c hc
  have := List.mem_takeWhile_imp hc
  simpa using this

theorem tail_head_glyph (s : List Nat) :
    ∀ x, (s.dropWhile (fun c => decide (c ∉ glyph_chars))).head? = some x → x ∈ glyph_chars := by
  intro x hx
  have := List.head?_dropWhile_not (fun c => decide (c ∉ glyph_chars)) s
  rw [hx] at this
  simpa using this

theorem leading_chars_append (s : List Nat) :
    s = leading_chars s ++ s.dropWhile (fun c => decide (c ∉ glyph_chars)) := by
  unfold leading_chars
  exact (List.takeWhile_append_dropWhile _ s).symm

/-- State at the end of the scan of `m ++ b` followed by NUL, where `m` has no
glyph character and `b` is empty or starts with one. -/
theorem store_scan_lead (info : bonespivfd_info) (m b : List Nat) (hp : pins_below info 31)
    (hm : ∀ x, x ∈ m → x ∉ glyph_chars)
    (hb : ∀ x, b.head? = some x → x ∈ glyph_chars) (hk : count_glyphs b ≤ info.max_digits) :
    (store_scan info (0 :: (m ++ b).reverse) (store_init info)).digit = count_glyphs b ∧
    (store_scan info (0 :: (m ++ b).reverse) (store_init info)).period
      = (if 46 ∈ m then 1 else 0) ∧
    ∀ j, count_glyphs b ≤ j →
      (store_scan info (0 :: (m ++ b).reverse) (store_init info)).buf j = memset_buf info j := by
  have hl : 0 :: (m ++ b).reverse = (0 :: b.reverse) ++ m.reverse := by simp
  have ht := store_scan_tail info b hp hb hk
  have hmr : ∀ x, x ∈ m.reverse → x ∉ glyph_chars := fun x hx => hm x (List.mem_reverse.1 hx)
  rw [hl, store_scan_append, store_scan_no_glyph info m.reverse _ hmr]
  simp only [List.mem_reverse]
  exact ⟨ht.1, by rw [ht.2.1], ht.2.2⟩

/-- Contents of the frame buffer after `bonespivfd_store_display`. -/
theorem store_display_frame (info : bonespivfd_info) (s : List Nat)
    (hp : pins_below info 31) (hk : count_glyphs s ≤ info.max_digits) :
    (∀ a c m b, s = a ++ c :: (m ++ b) → c ∈ glyph_chars →
        (∀ x, x ∈ m → x ∉ glyph_chars) → (∀ x, b.head? = some x → x ∈ glyph_chars) →
        (bonespivfd_store_display info s 0).buf (count_glyphs b) =
          char_to_segment info (count_glyphs b) (nixie_value_array.indexOf c)
            (if 46 ∈ m then 1 else 0)) ∧
    (46 ∈ leading_chars s → count_glyphs s < info.max_digits →
        (bonespivfd_store_display info s 0).buf (count_glyphs s) =
          char_to_segment info (count_glyphs s) (nixie_value_array.indexOf 46) 0) ∧
    (∀ j, count_glyphs s ≤ j → j < info.max_digits →
        ¬ (j = count_glyphs s ∧ 46 ∈ leading_chars s) →
        (bonespivfd_store_display info s 0).buf j = 0) := by
  have hsplit := leading_chars_append s
  have hlead := leading_chars_no_glyph s
  have hcs : count_glyphs s
      = count_glyphs (s.dropWhile (fun c => decide (c ∉ glyph_chars))) := by
    conv_lhs => rw [hsplit]
    rw [count_glyphs_append, count_glyphs_of_no_glyph _ hlead, Nat.zero_add]
  have hend := store_scan_lead info (leading_chars s)
    (s.dropWhile (fun c => decide (c ∉ glyph_chars))) hp hlead (tail_head_glyph s)
    (by rw [← hcs]; exact hk)
  rw [← hsplit, ← hcs] at hend
  refine ⟨?_, ?_, ?_⟩
  · intro a c m b hs hc hm hb
    have hcount : count_glyphs s = count_glyphs a + (count_glyphs b + 1) := by
      rw [hs, count_glyphs_append, count_glyphs_cons, if_pos hc, count_glyphs_append,
        count_glyphs_of_no_glyph m hm, Nat.zero_add]
    have hmid := store_scan_lead info m b hp hm hb (by omega)
    have hl : 0 :: s.reverse = (0 :: (m ++ b).reverse) ++ (c :: a.reverse) := by
      rw [hs]; simp
    have hstep := store_step_glyph_ok info
      (store_scan info (0 :: (m ++ b).reverse) (store_init info)) c hp
      (by rw [hmid.1]; omega) hc
    rw [hmid.1, hmid.2.1] at hstep
    have hfr := store_scan_frame info a.reverse
      (store_step info (store_scan info (0 :: (m ++ b).reverse) (store_init info)) c)
    rw [hstep] at hfr
    simp only at hfr
    have hbuf : (store_scan info (0 :: s.reverse) (store_init info)).buf (count_glyphs b)
        = char_to_segment info (count_glyphs b) (nixie_value_array.indexOf c)
            (if 46 ∈ m then 1 else 0) := by
      rw [hl, store_scan_append, store_scan_cons, hstep, hfr.2 _ (Nat.lt_succ_self _)]
      exact Function.update_same _ _ _
    rw [store_display_buf, if_neg, hbuf]
    rintro ⟨-, hj⟩
    rw [hend.1] at hj
    omega
  · intro hdot hlt
    rw [store_display_buf, if_pos, hend.1]
    · rfl
    · rw [hend.2.1, if_pos hdot, hend.1]
      exact ⟨by decide, rfl⟩
  · intro j hj hjm hnot
    rw [store_display_buf, if_neg, hend.2.2 j hj]
    · simp [memset_buf, hjm]
    · rw [hend.1, hend.2.1]
      rintro ⟨hper, hje⟩
      apply hnot
      refine ⟨hje, ?_⟩
      by_contra hdot
      rw [if_neg hdot] at hper
      exact hper rfl

theorem example_info_pins_below : pins_below example_info 31 := by
  constructor
  · intro i hi
    have : i < 8 := hi
    simp only [example_info]
    omega
  · intro d hd
    have : d < 4 := hd
    simp only [example_info]
    omega

theorem example_info_segments_distinct (n : Nat) (hn : 8 ≤ n) :
    segments_distinct_below example_info n := by
  constructor
  · intro i hi
    have : i < 8 := hi
    simp only [example_info]
    omega
  · intro i j _ _ h
    simpa [example_info] using h

/-- A character outside the alphabet changes nothing in the scan. -/
theorem store_scan_filter (info : bonespivfd_info) (l : List Nat) (st : store_state) :
    store_scan info (l.filter (fun c => decide (c ∈ alphabet))) st = store_scan info l st := by
  induction l generalizing st with
  | nil => rfl
  | cons c l ih =>
    by_cases hc : c ∈ alphabet
    · rw [List.filter_cons_of_pos (by simpa using hc), store_scan_cons, store_scan_cons, ih]
    · rw [List.filter_cons_of_neg (by simpa using hc), store_scan_cons,
        store_step_skip info st c hc, ih]

/-! ## Reading the frame buffer back -/

/-- Text appended by `segment_to_char` for a digit whose segment mask is that
of glyph `g`, with `SEG_H` when `p` is set. -/
theorem segment_to_char_glyph (ro : rodata) (info : bonespivfd_info) (buf : List Nat)
    (j g p : Nat) (hg : g < 13)
    (hm : segment_mask info j
      = (nixie_segment_values.getD g 0 ||| (if p ≠ 0 then SEG_H else 0)) &&& 0xFF) :
    segment_to_char ro info buf j = buf ++ glyph_text g p := by
  unfold segment_to_char glyph_text
  rw [hm]
  by_cases hp : p = 0
  · subst hp
    interval_cases g <;> simp <;> rfl
  · simp only [hp, ne_eq, not_false_eq_true, if_true, true_or]
    interval_cases g <;> rfl

theorem segment_mask_zero (info : bonespivfd_info) (j : Nat) (h : info.buf j = 0) :
    segment_mask info j = 0 := by
  apply Nat.eq_of_testBit_eq
  intro b
  unfold segment_mask
  rw [testBit_decode_fold, h]
  simp

/-- A zero word of the frame buffer reads back as nothing. -/
theorem segment_to_char_zero (ro : rodata) (info : bonespivfd_info) (buf : List Nat) (j : Nat)
    (h : info.buf j = 0) : segment_to_char ro info buf j = buf := by
  have := segment_to_char_glyph ro info buf j 12 0 (by decide)
    (by rw [segment_mask_zero info j h]; decide)
  rw [this]
  simp [glyph_text]

theorem store_display_tables (info : bonespivfd_info) (s : List Nat) (last : Nat) :
    (bonespivfd_store_display info s last).segments_cache = info.segments_cache ∧
    (bonespivfd_store_display info s last).max_digits = info.max_digits := by
  unfold bonespivfd_store_display
  simp only
  split_ifs <;> exact ⟨rfl, rfl⟩

/-- Text appended by `segment_to_char` for a digit into which
`bonespivfd_store_display` has put the word of glyph `g`. -/
theorem segment_to_char_stored (ro : rodata) (info dev : bonespivfd_info) (buf : List Nat)
    (j g p : Nat) (hcfg : roundtrip_config info) (hj : j < info.max_digits) (hg : g < 13)
    (hsame : dev.segments_cache = info.segments_cache)
    (hw : dev.buf j = char_to_segment info j g p) :
    segment_to_char ro dev buf j = buf ++ glyph_text g p := by
  have hseg : segments_distinct_below info 32 :=
    ⟨fun i hi => Nat.lt_trans (hcfg.segments.1 i hi) (by decide), hcfg.segments.2⟩
  apply segment_to_char_glyph ro dev buf j g p hg
  rw [segment_mask_char_to_segment info dev j g p j hseg (hcfg.digits_ne j hj) hsame hw]
  unfold masked_glyph
  rw [hcfg.mask_full j hj, Nat.and_assoc, Nat.and_self]

/-- Digits holding zero words at the top of the display add nothing. -/
theorem show_loop_zero_top (ro : rodata) (dev : bonespivfd_info) (n k : Nat) (buf : List Nat)
    (hz : ∀ j, n ≤ j → j < n + k → dev.buf j = 0) :
    show_loop ro dev (n + k) buf = show_loop ro dev n buf := by
  induction k with
  | zero => rfl
  | succ k ih =>
    have h1 : n + (k + 1) = (n + k) + 1 := rfl
    rw [h1, show_loop, segment_to_char_zero ro dev buf (n + k) (hz _ (by omega) (by omega))]
    exact ih (fun j h1 h2 => hz j h1 (by omega))

theorem glyph_index_lt {c : Nat} (h : c ∈ alphabet) : nixie_value_array.indexOf c < 13 := by
  rw [alphabet_eq] at h
  simp only [List.mem_cons, List.mem_singleton, List.mem_nil_iff, or_false] at h
  rcases h with h | h | h | h | h | h | h | h | h | h | h | h | h <;> subst h <;> decide

theorem glyph_text_of_glyph {c : Nat} (h : c ∈ glyph_chars) :
    glyph_text (nixie_value_array.indexOf c) 0 = if c = 32 then [] else [c] := by
  rw [glyph_chars_eq] at h
  simp only [List.mem_cons, List.mem_singleton, List.mem_nil_iff, or_false] at h
  rcases h with h | h | h | h | h | h | h | h | h | h | h | h <;> subst h <;> decide

theorem count_glyphs_of_all_glyph (l : List Nat) (h : ∀ c, c ∈ l → c ∈ glyph_chars) :
    count_glyphs l = l.length := by
  unfold count_glyphs
  rw [List.countP_eq_length]
  intro c hc
  simpa using h c hc

/-- Reading back the lowest digits of a device in which the words of the
glyph characters `b`, the tail of the written text, are stored. -/
theorem show_loop_glyphs (ro : rodata) (info dev : bonespivfd_info)
    (hcfg : roundtrip_config info) (hsame : dev.segments_cache = info.segments_cache)
    (b : List Nat) (hb : ∀ c, c ∈ b → c ∈ glyph_chars) (hlen : b.length ≤ info.max_digits)
    (hw : ∀ a c t, b = a ++ c :: t →
      dev.buf t.length = char_to_segment info t.length (nixie_value_array.indexOf c) 0)
    (buf : List Nat) :
    show_loop ro dev b.length buf = buf ++ b.filter (fun c => decide (c ≠ 32)) := by
  induction b generalizing buf with
  | nil => simp [show_loop]
  | cons c t ih =>
    have hc : c ∈ glyph_chars := hb c (List.mem_cons_self _ _)
    have ht : ∀ x, x ∈ t → x ∈ glyph_chars := fun x hx => hb x (List.mem_cons_of_mem _ hx)
    have hlen' : t.length < info.max_digits := by simpa using hlen
    rw [List.length_cons, show_loop,
      segment_to_char_stored ro info dev buf t.length (nixie_value_array.indexOf c) 0 hcfg
        hlen' (glyph_index_lt (glyph_mem_alphabet hc)) hsame (hw [] c t rfl),
      ih ht (le_of_lt hlen') (fun a x u hu => hw (c :: a) x u (by rw [hu]; rfl)),
      glyph_text_of_glyph hc]
    by_cases h32 : c = 32
    · simp [h32]
    · simp [h32]

theorem roundtrip_config_pins {info : bonespivfd_info} (hcfg : roundtrip_config info) :
    pins_below info 31 := ⟨hcfg.segments.1, hcfg.digits_lt⟩

theorem leading_chars_of_all_glyph (s : List Nat) (hs : ∀ c, c ∈ s → c ∈ glyph_chars) :
    leading_chars s = [] := by
  cases s with
  | nil => rfl
  | cons c t =>
    unfold leading_chars
    rw [List.takeWhile_cons_of_neg]
    simpa using hs c (List.mem_cons_self _ _)

/-- Text read back after writing a text made of glyph characters only. -/
theorem show_store_glyphs (ro : rodata) (info : bonespivfd_info) (s : List Nat)
    (hcfg : roundtrip_config info) (hs : ∀ c, c ∈ s → c ∈ glyph_chars)
    (hlen : s.length ≤ info.max_digits) :
    bonespivfd_show_display ro (bonespivfd_store_display info s 0) []
      = s.filter (fun c => decide (c ≠ 32)) ++ bytes "\n" := by
  have hp := roundtrip_config_pins hcfg
  have hcount := count_glyphs_of_all_glyph s hs
  have hC2 := store_display_frame info s hp (by rw [hcount]; exact hlen)
  have htab := store_display_tables info s 0
  unfold bonespivfd_show_display
  rw [htab.2]
  obtain ⟨k, hk⟩ := Nat.exists_eq_add_of_le hlen
  rw [hk, show_loop_zero_top ro _ s.length k []]
  · rw [show_loop_glyphs ro info _ hcfg htab.1 s hs hlen _ []]
    · simp
    · intro a c t hst
      have hc : c ∈ glyph_chars := hs c (by rw [hst]; simp)
      have ht : ∀ x, x ∈ t → x ∈ glyph_chars := fun x hx => hs x (by rw [hst]; simp [hx])
      have := hC2.1 a c [] t (by simpa using hst) hc (by simp)
        (fun x hx => ht x (List.mem_of_mem_head? hx))
      rw [count_glyphs_of_all_glyph t ht] at this
      simpa using this
  · intro j h1 h2
    apply hC2.2.2 j (by rw [hcount]; exact h1) (by rw [hk]; exact h2)
    rw [leading_chars_of_all_glyph s hs]
    simp

/-- Text read back after writing one period followed by glyph characters. -/
theorem show_store_period_glyphs (ro : rodata) (info : bonespivfd_info) (t : List Nat)
    (hcfg : roundtrip_config info) (ht : ∀ c, c ∈ t → c ∈ glyph_chars)
    (hlen : t.length + 1 ≤ info.max_digits) :
    bonespivfd_show_display ro (bonespivfd_store_display info (46 :: t) 0) []
      = 46 :: t.filter (fun c => decide (c ≠ 32)) ++ bytes "\n" := by
  have hp := roundtrip_config_pins hcfg
  have hcount : count_glyphs (46 :: t) = t.length := by
    rw [count_glyphs_cons, if_neg period_not_glyph, count_glyphs_of_all_glyph t ht, Nat.add_zero]
  have hlead : leading_chars (46 :: t) = [46] := by
    have h1 : leading_chars (46 :: t) = 46 :: leading_chars t := by
      unfold leading_chars
      rw [List.takeWhile_cons_of_pos]
      simpa using period_not_glyph
    rw [h1, leading_chars_of_all_glyph t ht]
  have hC2 := store_display_frame info (46 :: t) hp (by rw [hcount]; omega)
  have htab := store_display_tables info (46 :: t) 0
  unfold bonespivfd_show_display
  rw [htab.2]
  obtain ⟨k, hk⟩ := Nat.exists_eq_add_of_le hlen
  rw [hk, show_loop_zero_top ro _ (t.length + 1) k [], show_loop]
  · have hdot := hC2.2.1 (by rw [hlead]; simp) (by rw [hcount]; omega)
    rw [hcount] at hdot
    rw [segment_to_char_stored ro info _ [] t.length (nixie_value_array.indexOf 46) 0 hcfg
        (by omega) (by decide) htab.1 hdot,
      show_loop_glyphs ro info _ hcfg htab.1 t ht (by omega) _ _]
    · have : glyph_text (nixie_value_array.indexOf 46) 0 = [46] := by decide
      rw [this]
      simp
    · intro a c u hst
      have hc : c ∈ glyph_chars := ht c (by rw [hst]; simp)
      have hu : ∀ x, x ∈ u → x ∈ glyph_chars := fun x hx => ht x (by rw [hst]; simp [hx])
      have := hC2.1 (46 :: a) c [] u (by simp [hst]) hc (by simp)
        (fun x hx => hu x (List.mem_of_mem_head? hx))
      rw [count_glyphs_of_all_glyph u hu] at this
      simpa using this
  · intro j h1 h2
    apply hC2.2.2 j (by rw [hcount]; omega) (by rw [hk]; exact h2)
    rw [hcount]
    omega

theorem example_info_roundtrip : roundtrip_config example_info where
  segments := example_info_segments_distinct 31 (by decide)
  digits_lt := example_info_pins_below.2
  digits_ne := by
    intro d hd i hi
    have h1 : d < 4 := hd
    have h2 : i < 8 := hi
    simp only [example_info]
    omega
  mask_full := fun _ _ => rfl

/-! ## The refresh -/

/-- The loop of `spi_display_update` when no write fails. -/
theorem update_loop_ok (info : bonespivfd_info) (spi_write : Nat → List Nat → Int)
    (hok : ∀ k data, spi_write k data = 0) (n i : Nat) (sent : List (List Nat)) :
    update_loop info spi_write n i sent
      = (sent ++ (List.range n).map (fun k => frame_of_word (info.buf (i + k))), true) := by
  induction n generalizing i sent with
  | zero => simp [update_loop]
  | succ n ih =>
    rw [update_loop]
    simp only [hok, ne_eq, not_true_eq_false, if_false]
    rw [ih, List.range_succ_eq_map, List.map_cons, List.map_map, List.append_assoc]
    congr 2
    simp only [List.singleton_append, Nat.add_zero, List.cons.injEq, true_and]
    apply List.map_congr_left
    intro k _
    simp only [Function.comp, Nat.succ_eq_add_one]
    congr 2
    omega

/-- The four bytes of a 32-bit word, most significant first, give the word
back. -/
theorem frame_of_word_value (val : Nat) (h : val < 2 ^ 32) :
    (((val >>> 24) &&& 0xff) <<< 24) ||| (((val >>> 16) &&& 0xff) <<< 16) |||
      (((val >>> 8) &&& 0xff) <<< 8) ||| (val &&& 0xff) = val := by
  have h255 : (0xff : Nat) = 2 ^ 8 - 1 := by norm_num
  apply Nat.eq_of_testBit_eq
  intro j
  simp only [Nat.testBit_or, Nat.testBit_shiftLeft, Nat.testBit_and, Nat.testBit_shiftRight,
    h255, Nat.testBit_two_pow_sub_one]
  by_cases h32 : 32 ≤ j
  · have hj : val.testBit j = false :=
      Nat.testBit_lt_two_pow (lt_of_lt_of_le h (Nat.pow_le_pow_right (by decide) h32))
    have e1 : ¬ j - 24 < 8 := by omega
    have e2 : ¬ j - 16 < 8 := by omega
    have e3 : ¬ j - 8 < 8 := by omega
    have e4 : ¬ j < 8 := by omega
    simp [hj, e1, e2, e3, e4]
  · by_cases h24 : 24 ≤ j
    · have e0 : 24 + (j - 24) = j := by omega
      have e1 : j - 24 < 8 := by omega
      have e2 : ¬ j - 16 < 8 := by omega
      have e3 : ¬ j - 8 < 8 := by omega
      have e4 : ¬ j < 8 := by omega
      simp [e0, e1, e2, e3, e4, h24]
    · by_cases h16 : 16 ≤ j
      · have e0 : 16 + (j - 16) = j := by omega
        have e1 : j - 16 < 8 := by omega
        have e3 : ¬ j - 8 < 8 := by omega
        have e4 : ¬ j < 8 := by omega
        have e5 : ¬ 24 ≤ j := h24
        simp [e0, e1, e3, e4, e5, h16]
      · by_cases h8 : 8 ≤ j
        · have e0 : 8 + (j - 8) = j := by omega
          have e1 : j - 8 < 8 := by omega
          have e4 : ¬ j < 8 := by omega
          have e5 : ¬ 24 ≤ j := h24
          have e6 : ¬ 16 ≤ j := h16
          simp [e0, e1, e4, e5, e6, h8]
        · have e4 : j < 8 := by omega
          have e5 : ¬ 24 ≤ j := h24
          have e6 : ¬ 16 ≤ j := h16
          have e7 : ¬ 8 ≤ j := h8
          simp [e4, e5, e6, e7]

theorem map_range_shift (info : bonespivfd_info) (i n : Nat) :
    (List.range (n + 1)).map (fun k => frame_of_word (info.buf (i + k)))
      = frame_of_word (info.buf i)
        :: (List.range n).map (fun k => frame_of_word (info.buf (i + 1 + k))) := by
  rw [List.range_succ_eq_map, List.map_cons, List.map_map]
  congr 1
  apply List.map_congr_left
  intro k _
  simp only [Function.comp, Nat.succ_eq_add_one]
  congr 2
  omega

/-- The loop of `spi_display_update` when its `n` writes succeed. -/
theorem update_loop_all_ok (info : bonespivfd_info) (spi_write : Nat → List Nat → Int)
    (n i : Nat) (sent : List (List Nat))
    (hok : ∀ j, j < n → spi_write (sent.length + j) (frame_of_word (info.buf (i + j))) = 0) :
    update_loop info spi_write n i sent
      = (sent ++ (List.range n).map (fun k => frame_of_word (info.buf (i + k))), true) := by
  induction n generalizing i sent with
  | zero => simp [update_loop]
  | succ n ih =>
    have h0 := hok 0 (Nat.succ_pos n)
    rw [Nat.add_zero, Nat.add_zero] at h0
    rw [update_loop]
    simp only [h0, ne_eq, not_true_eq_false, if_false]
    rw [ih, map_range_shift, List.append_assoc, List.singleton_append]
    intro j hj
    have := hok (j + 1) (by omega)
    rw [List.length_append, List.length_singleton]
    rw [show sent.length + 1 + j = sent.length + (j + 1) by omega,
      show i + 1 + j = i + (j + 1) by omega]
    exact this

/-- The loop of `spi_display_update` when the write number `k` is the first
to fail. -/
theorem update_loop_fail (info : bonespivfd_info) (spi_write : Nat → List Nat → Int)
    (n i k : Nat) (sent : List (List Nat)) (hk : k < n)
    (hok : ∀ j, j < k → spi_write (sent.length + j) (frame_of_word (info.buf (i + j))) = 0)
    (hfail : spi_write (sent.length + k) (frame_of_word (info.buf (i + k))) ≠ 0) :
    update_loop info spi_write n i sent
      = (sent ++ (List.range (k + 1)).map (fun j => frame_of_word (info.buf (i + j))), false) := by
  induction n generalizing i sent k with
  | zero => omega
  | succ n ih =>
    rw [update_loop]
    cases k with
    | zero =>
      rw [Nat.add_zero, Nat.add_zero] at hfail
      simp only [hfail, ne_eq, not_false_eq_true, if_true]
      rw [map_range_shift info i 0]
      simp
    | succ k =>
      have h0 := hok 0 (Nat.succ_pos k)
      rw [Nat.add_zero, Nat.add_zero] at h0
      simp only [h0, ne_eq, not_true_eq_false, if_false]
      rw [ih (i + 1) k (sent ++ [frame_of_word (info.buf i)]) (by omega), map_range_shift info i (k + 1),
        List.append_assoc, List.singleton_append]
      · intro j hj
        have := hok (j + 1) (by omega)
        rw [List.length_append, List.length_singleton]
        rw [show sent.length + 1 + j = sent.length + (j + 1) by omega,
          show i + 1 + j = i + (j + 1) by omega]
        exact this
      · rw [List.length_append, List.length_singleton]
        rw [show sent.length + 1 + k = sent.length + (k + 1) by omega,
          show i + 1 + k = i + (k + 1) by omega]
        exact hfail

theorem getD_all_frames_lt (info : bonespivfd_info) (j : Nat) (hj : j < info.max_digits) :
    (all_frames info).getD j [] = frame_of_word (info.buf j) := by
  unfold all_frames
  rw [List.getD_append _ _ _ _ (by simpa using hj)]
  rw [List.getD_eq_getElem _ _ (by simpa using hj)]
  simp

theorem getD_all_frames_last (info : bonespivfd_info) :
    (all_frames info).getD info.max_digits [] = [0, 0, 0, 0] := by
  unfold all_frames
  rw [List.getD_append_right _ _ _ _ (by simp)]
  simp

theorem take_all_frames (info : bonespivfd_info) (k : Nat) (hk : k < info.max_digits) :
    (all_frames info).take (k + 1)
      = (List.range (k + 1)).map (fun i => frame_of_word (info.buf i)) := by
  unfold all_frames
  rw [List.take_append_of_le_length (by simpa using hk), ← List.map_take, List.take_range,
    Nat.min_eq_left hk]

/-- One run of `spi_display_update` in which the write number `k` is the
first to fail. -/
theorem update_first_failure (info : bonespivfd_info) (spi_write : Nat → List Nat → Int)
    (k : Nat) (hk : k ≤ info.max_digits)
    (hok : ∀ j, j < k → spi_write j ((all_frames info).getD j []) = 0)
    (hfail : spi_write k ((all_frames info).getD k []) ≠ 0) :
    (spi_display_update info spi_write).frames = (all_frames info).take (k + 1) ∧
    (spi_display_update info spi_write).rescheduled = none := by
  rcases Nat.lt_or_eq_of_le hk with hlt | heq
  · have hloop := update_loop_fail info spi_write info.max_digits 0 k [] hlt
      (by
        intro j hj
        have := hok j hj
        rw [getD_all_frames_lt info j (by omega)] at this
        simpa using this)
      (by
        rw [getD_all_frames_lt info k hlt] at hfail
        simpa using hfail)
    unfold spi_display_update
    rw [hloop, take_all_frames info k hlt]
    simp
  · subst heq
    have hloop := update_loop_all_ok info spi_write info.max_digits 0 []
      (by
        intro j hj
        have := hok j hj
        rw [getD_all_frames_lt info j hj] at this
        simpa using this)
    rw [getD_all_frames_last] at hfail
    unfold spi_display_update
    rw [hloop]
    have hlen : ([] ++ (List.range info.max_digits).map
        (fun k => frame_of_word (info.buf (0 + k)))).length = info.max_digits := by simp
    simp only [hlen, hfail, ne_eq, not_false_eq_true, if_true, Bool.true_eq_false, if_false]
    have hall : (all_frames info).take (info.max_digits + 1) = all_frames info :=
      List.take_of_length_le (by simp [all_frames])
    rw [hall]
    simp [all_frames]

/-- One run of `spi_display_update` in which every write succeeds. -/
theorem update_all_ok (info : bonespivfd_info) (spi_write : Nat → List Nat → Int)
    (hok : ∀ j, j ≤ info.max_digits → spi_write j ((all_frames info).getD j []) = 0) :
    (spi_display_update info spi_write).frames = all_frames info ∧
    (spi_display_update info spi_write).rescheduled = some info.refresh_rate := by
  have hloop := update_loop_all_ok info spi_write info.max_digits 0 []
    (by
      intro j hj
      have := hok j (le_of_lt hj)
      rw [getD_all_frames_lt info j hj] at this
      simpa using this)
  have hlast := hok info.max_digits (le_refl _)
  rw [getD_all_frames_last] at hlast
  unfold spi_display_update
  rw [hloop]
  have hlen : ([] ++ (List.range info.max_digits).map
      (fun k => frame_of_word (info.buf (0 + k)))).length = info.max_digits := by simp
  simp only [hlen, hlast, ne_eq, not_true_eq_false, if_false, Bool.true_eq_false]
  simp [all_frames]

/-! ## Further facts on writing and reading -/

theorem strncat1_append (buf : List Nat) (val : Nat) :
    strncat1 buf val = buf ++ strncat1 [] val := by
  unfold strncat1
  split_ifs <;> simp

/-- `segment_to_char` only appends to the text. -/
theorem segment_to_char_append (ro : rodata) (info : bonespivfd_info) (buf : List Nat)
    (j : Nat) : segment_to_char ro info buf j = buf ++ segment_to_char ro info [] j := by
  unfold segment_to_char
  dsimp only
  cases hfind : (List.range sizeof_nixie_segment_values).find?
      (fun i => nixie_segment_values_at ro i == clear_SEG_H (segment_mask info j)) with
  | none => simp
  | some i =>
    dsimp only
    rw [strncat1_append buf]
    split_ifs <;> simp

/-- The loop of `bonespivfd_show_display` appends the texts of the digits
`n - 1`, ..., `0`. -/
theorem show_loop_eq (ro : rodata) (info : bonespivfd_info) (n : Nat) (buf : List Nat) :
    show_loop ro info n buf
      = buf ++ (List.range n).reverse.flatMap (fun j => segment_to_char ro info [] j) := by
  induction n generalizing buf with
  | zero => simp [show_loop]
  | succ n ih =>
    rw [show_loop, ih, segment_to_char_append, List.range_succ, List.reverse_append,
      List.reverse_singleton, List.singleton_append, List.flatMap_cons, List.append_assoc]

theorem store_step_with_buf (info : bonespivfd_info) (b : Nat → Nat) :
    store_step (with_buf info b) = store_step info := rfl

theorem store_scan_with_buf (info : bonespivfd_info) (b : Nat → Nat) (l : List Nat)
    (st : store_state) : store_scan (with_buf info b) l st = store_scan info l st := by
  unfold store_scan
  rw [store_step_with_buf]

theorem char_to_segment_with_buf (info : bonespivfd_info) (b : Nat → Nat) (d g p : Nat) :
    char_to_segment (with_buf info b) d g p = char_to_segment info d g p := rfl

/-- One step of the scan on two states that differ in the frame buffer
only. -/
theorem store_step_indep (info : bonespivfd_info) (st1 st2 : store_state) (c j : Nat)
    (hd : st1.digit = st2.digit) (hp : st1.period = st2.period) (hj : st1.buf j = st2.buf j) :
    (store_step info st1 c).digit = (store_step info st2 c).digit ∧
    (store_step info st1 c).period = (store_step info st2 c).period ∧
    (store_step info st1 c).buf j = (store_step info st2 c).buf j := by
  unfold store_step
  simp only [hd, hp]
  split_ifs
  all_goals first
    | exact ⟨hd, hp, hj⟩
    | exact ⟨rfl, rfl, hj⟩
    | exact ⟨hd, rfl, hj⟩
    | exact ⟨rfl, hp, hj⟩
    | (refine ⟨rfl, rfl, ?_⟩
       simp only [Function.update_apply, hj])

/-- The scan on two states that differ in the frame buffer only. -/
theorem store_scan_indep (info : bonespivfd_info) (l : List Nat) (st1 st2 : store_state)
    (j : Nat) (hd : st1.digit = st2.digit) (hp : st1.period = st2.period)
    (hj : st1.buf j = st2.buf j) :
    (store_scan info l st1).digit = (store_scan info l st2).digit ∧
    (store_scan info l st1).period = (store_scan info l st2).period ∧
    (store_scan info l st1).buf j = (store_scan info l st2).buf j := by
  induction l generalizing st1 st2 with
  | nil => exact ⟨hd, hp, hj⟩
  | cons c l ih =>
    rw [store_scan_cons, store_scan_cons]
    have h := store_step_indep info st1 st2 c j hd hp hj
    exact ih _ _ h.1 h.2.1 h.2.2

/-- The scan moves the digit index up by at most the number of glyph
characters and writes nothing at or above that bound. -/
theorem store_scan_upper (info : bonespivfd_info) (l : List Nat) (st : store_state) :
    (store_scan info l st).digit ≤ st.digit + count_glyphs l ∧
      ∀ j, st.digit + count_glyphs l ≤ j → (store_scan info l st).buf j = st.buf j := by
  induction l generalizing st with
  | nil => exact ⟨le_refl _, fun _ _ => rfl⟩
  | cons c l ih =>
    rw [store_scan_cons, count_glyphs_cons]
    by_cases hg : c ∈ glyph_chars
    · rw [if_pos hg, store_step_glyph info st c hg]
      split_ifs
      · have h := ih st
        exact ⟨by omega, fun j hj => h.2 j (by omega)⟩
      · have h := ih (store_state.mk (st.digit + 1) 0 (Function.update st.buf st.digit
          (char_to_segment info st.digit (nixie_value_array.indexOf c) st.period)))
        simp only at h
        refine ⟨by omega, fun j hj => ?_⟩
        rw [h.2 j (by omega)]
        exact Function.update_noteq (by omega) _ _
    · rw [if_neg hg]
      have hs : store_step info st c = { st with period := if c = 46 then 1 else st.period } := by
        have := store_scan_no_glyph info [c] st (by simpa using hg)
        rw [store_scan_cons, store_scan_nil] at this
        rw [this]
        simp [eq_comm]
      rw [hs]
      have h := ih { st with period := if c = 46 then 1 else st.period }
      simpa using h

/-- Without the byte at index `count` being a character of the alphabet the
scan from `count` is the scan from `count - 1`. -/
theorem store_display_eq_bounded (info : bonespivfd_info) (s : List Nat) (last : Nat)
    (h : last ∉ alphabet) :
    bonespivfd_store_display info s last = store_display_bounded info s := by
  unfold bonespivfd_store_display store_display_bounded
  rw [List.reverse_append, List.reverse_singleton, List.singleton_append, store_scan_cons,
    store_step_skip info _ last h]
  rfl

theorem shl1_with_of_lt (over : Nat → Nat) {n : Nat} (h : n < 32) :
    shl1_with over n = shl1 n := by
  unfold shl1_with
  rw [if_pos h, shl1_of_lt h, Nat.one_shiftLeft]

/-- With the pins it uses below 32 `char_to_segment` makes no shift by 32 or
more. -/
theorem char_to_segment_with_eq (over : Nat → Nat) (info : bonespivfd_info) (d idx p : Nat)
    (hseg : ∀ i, i < SEGMENT_COUNT → info.segments_cache i < 32)
    (hd : info.digits_cache d < 32) :
    char_to_segment_with over info d idx p = char_to_segment info d idx p := by
  unfold char_to_segment_with char_to_segment
  dsimp only
  rw [shl1_with_of_lt over hd]
  congr 1
  apply List.foldl_ext
  intro a i hi
  rw [shl1_with_of_lt over (hseg i (List.mem_range.1 hi))]

/-- With the segment pins below 32 the first loop of `segment_to_char` makes
no shift by 32 or more. -/
theorem segment_mask_with_eq (over : Nat → Nat) (info : bonespivfd_info) (idx : Nat)
    (hseg : ∀ i, i < SEGMENT_COUNT → info.segments_cache i < 32) :
    segment_mask_with over info idx = segment_mask info idx := by
  unfold segment_mask_with segment_mask
  apply List.foldl_ext
  intro a i hi
  dsimp only
  rw [shl1_with_of_lt over (hseg i (List.mem_range.1 hi))]

/-- An iteration of the scan loop leaves alone every entry it does not store
at. -/
theorem store_step_unwritten (info : bonespivfd_info) (st : store_state) (c j : Nat)
    (h : store_step_writes info st c ≠ some j) :
    (store_step info st c).buf j = st.buf j := by
  unfold store_step_writes at h
  unfold store_step
  dsimp only at h ⊢
  split_ifs at h ⊢
  · rfl
  · rfl
  · rfl
  · have hne : j ≠ st.digit := fun he => h (by rw [he])
    exact Function.update_noteq hne _ _

/-- The scan loop leaves alone every entry it does not store at. -/
theorem store_scan_unwritten (info : bonespivfd_info) (l : List Nat) (st : store_state)
    (j : Nat) (h : j ∉ store_scan_writes info l st) :
    (store_scan info l st).buf j = st.buf j := by
  induction l generalizing st with
  | nil => rfl
  | cons c l ih =>
    rw [store_scan_writes, List.mem_append, not_or] at h
    rw [store_scan_cons, ih _ h.2]
    apply store_step_unwritten
    intro he
    apply h.1
    rw [he]
    simp

/-- After `bonespivfd_store_display` every entry of the frame buffer it has
not stored at is 0. -/
theorem store_display_unwritten (info : bonespivfd_info) (s : List Nat) (last j : Nat)
    (hj : j < info.max_digits) (h : j ∉ store_display_writes info s last) :
    (bonespivfd_store_display info s last).buf j = 0 := by
  unfold store_display_writes at h
  rw [List.reverse_append, List.reverse_singleton, List.singleton_append] at h
  dsimp only at h
  rw [List.mem_append, not_or] at h
  rw [store_display_buf, if_neg, store_scan_unwritten info _ _ j h.1]
  · simp [store_init, memset_buf, hj]
  · rintro ⟨hper, hje⟩
    apply h.2
    rw [if_pos hper, is_valid_value_period, if_neg (by decide), hje]
    simp

/-! ## The device tree -/

theorem int_of_u32_of_lt (v : Nat) (h : v < 2 ^ 31) : int_of_u32 v = v := by
  unfold int_of_u32
  have h1 : v % 2 ^ 32 = v := Nat.mod_eq_of_lt (by omega)
  rw [h1, if_pos h]

theorem error_neg_ite {α : Type} (c : Prop) [Decidable c] (x y : Except Int α)
    (hx : c → ∀ e, x = .error e → e < 0) (hy : ¬ c → ∀ e, y = .error e → e < 0) :
    ∀ e, (if c then x else y) = .error e → e < 0 := by
  by_cases h : c
  · rw [if_pos h]; exact hx h
  · rw [if_neg h]; exact hy h

/-- Every error number `bonespivfd_parse_dt` returns is negative. -/
theorem parse_dt_error_neg (env : probe_env) :
    ∀ e, bonespivfd_parse_dt env = .error e → e < 0 := by
  cases hnp : env.np with
  | none =>
    unfold bonespivfd_parse_dt
    simp only [hnp, bind, Except.bind, throw, throwThe, MonadExceptOf.throw]
    intro e he; cases he; decide
  | some np =>
    cases hdi : np.digits_idx with
    | none =>
      unfold bonespivfd_parse_dt
      simp only [hnp, hdi, bind, Except.bind, pure, Except.pure, throw, throwThe,
        MonadExceptOf.throw]
      intro e he; cases he; decide
    | some di =>
      cases hsi : np.segments_idx with
      | none =>
        unfold bonespivfd_parse_dt
        simp only [hnp, hdi, hsi, bind, Except.bind, pure, Except.pure, throw, throwThe,
          MonadExceptOf.throw]
        repeat' (apply error_neg_ite <;> intro _)
        all_goals (intro e he; cases he; first | decide | assumption)
      | some si =>
        cases hdm : np.digits_mask with
        | none =>
          unfold bonespivfd_parse_dt
          simp only [hnp, hdi, hsi, hdm, bind, Except.bind, pure, Except.pure, throw, throwThe,
            MonadExceptOf.throw]
          repeat' (apply error_neg_ite <;> intro _)
          all_goals (intro e he; cases he; first | decide | assumption)
        | some dm =>
          unfold bonespivfd_parse_dt
          simp only [hnp, hdi, hsi, hdm, bind, Except.bind, pure, Except.pure, throw, throwThe,
            MonadExceptOf.throw]
          repeat' (apply error_neg_ite <;> intro _)
          all_goals (intro e he; cases he <;> first | decide | assumption)

theorem ok_ite {α : Type} (P : α → Prop) (c : Prop) [Decidable c] (x y : Except Int α)
    (hx : c → ∀ i, x = .ok i → P i) (hy : ¬ c → ∀ i, y = .ok i → P i) :
    ∀ i, (if c then x else y) = .ok i → P i := by
  by_cases h : c
  · rw [if_pos h]; exact hx h
  · rw [if_neg h]; exact hy h

/-- When `bonespivfd_parse_dt` returns 0 it was given what it accepts, and
`max_digits` and `refresh_rate` are as read from the node. -/
theorem parse_dt_ok_accepts (env : probe_env) :
    ∀ info, bonespivfd_parse_dt env = .ok info →
      parse_dt_accepts env ∧ ∃ np di, env.np = some np ∧ np.digits_idx = some di ∧
        info.max_digits = di.length / 4 ∧
        info.refresh_rate = int_of_u32 (np.refresh_rate.getD 150) := by
  cases hnp : env.np with
  | none =>
    unfold bonespivfd_parse_dt
    simp only [hnp, bind, Except.bind, throw, throwThe, MonadExceptOf.throw]
    intro i hi; cases hi
  | some np =>
    cases hdi : np.digits_idx with
    | none =>
      unfold bonespivfd_parse_dt
      simp only [hnp, hdi, bind, Except.bind, pure, Except.pure, throw, throwThe,
        MonadExceptOf.throw]
      intro i hi; cases hi
    | some di =>
      cases hsi : np.segments_idx with
      | none =>
        unfold bonespivfd_parse_dt
        simp only [hnp, hdi, hsi, bind, Except.bind, pure, Except.pure, throw, throwThe,
          MonadExceptOf.throw]
        repeat' (apply ok_ite <;> intro _)
        all_goals (intro i hi; cases hi)
      | some si =>
        cases hdm : np.digits_mask with
        | none =>
          unfold bonespivfd_parse_dt
          simp only [hnp, hdi, hsi, hdm, bind, Except.bind, pure, Except.pure, throw, throwThe,
            MonadExceptOf.throw]
          repeat' (apply ok_ite <;> intro _)
          all_goals (intro i hi; cases hi)
        | some dm =>
          have hrr : (match np.refresh_rate with
              | some value => value
              | none => 150) = np.refresh_rate.getD 150 := by
            cases np.refresh_rate <;> rfl
          unfold bonespivfd_parse_dt
          simp only [hnp, hdi, hsi, hdm, bind, Except.bind, pure, Except.pure, throw, throwThe,
            MonadExceptOf.throw, SEGMENT_COUNT, hrr]
          repeat' (apply ok_ite <;> intro _)
          all_goals (intro i hi; cases hi)
          all_goals
            simp only [Bool.not_eq_false] at *
            refine ⟨⟨np, di, si, dm, hnp, hdi, hsi, hdm, ?_, ?_, ?_, ?_, ?_, ?_, ?_⟩,
              np, di, rfl, hdi, rfl, rfl⟩
          all_goals first
            | assumption
            | omega
            | (intro h0; first | omega | exact ⟨by assumption, by omega⟩)

/-- Given what it accepts `bonespivfd_parse_dt` returns 0. -/
theorem parse_dt_of_accepts (env : probe_env) (h : parse_dt_accepts env) :
    ∃ info, bonespivfd_parse_dt env = .ok info := by
  obtain ⟨np, di, si, dm, hnp, hdi, hsi, hdm, a1, a2, a3, a4, a5, a6, a7⟩ := h
  unfold bonespivfd_parse_dt
  simp only [hnp, hdi, hsi, hdm, bind, Except.bind, pure, Except.pure, throw, throwThe,
    MonadExceptOf.throw, SEGMENT_COUNT]
  by_cases c1 : di.length / 4 > 0
  · obtain ⟨x, y⟩ := a1 c1
    simp [c1, x, not_lt.2 y, a2, a3, not_lt.2 a4, a5, a6, not_lt.2 a7]
  · simp [c1, a2, a3, not_lt.2 a4, a5, a6, not_lt.2 a7]

theorem parse_dt_ret_zero_iff (env : probe_env) :
    bonespivfd_parse_dt_ret env = 0 ↔ parse_dt_accepts env := by
  unfold bonespivfd_parse_dt_ret
  constructor
  · intro h
    cases hr : bonespivfd_parse_dt env with
    | ok info => exact (parse_dt_ok_accepts env info hr).1
    | error e =>
      rw [hr] at h
      simp only at h
      have := parse_dt_error_neg env e hr
      omega
  · intro h
    obtain ⟨info, hi⟩ := parse_dt_of_accepts env h
    rw [hi]

/-! ## The nixie cape -/

theorem u32_of_int_of_nonneg (x : Int) (h0 : 0 ≤ x) (h1 : x < 2 ^ 32) :
    u32_of_int x = x.toNat := by
  unfold u32_of_int
  rw [Int.emod_eq_of_lt h0 h1]

theorem wrap_int32_of_range (x : Int) (h0 : 0 ≤ x) (h1 : x < 2 ^ 31) : wrap_int32 x = x := by
  unfold wrap_int32
  rw [Int.emod_eq_of_lt h0 (by omega), int_of_u32_of_lt _ (by omega), Int.toNat_of_nonneg h0]

/-- A call of `bonenixie_start` on a running tube does nothing. -/
theorem bonenixie_start_running (info : bone_nixie_info) (h : info.run ≠ 0) :
    bonenixie_start info = { ret := 0, info := info, pwm_config := none } := by
  unfold bonenixie_start
  rw [if_pos h]

/-- The parameters that `bonenixie_start` refuses. -/
theorem bonenixie_start_rejected (info : bone_nixie_info) (hrun : info.run = 0)
    (h : info.pwm_frequency < 1000 ∨ info.pwm_frequency > 50000 ∨ info.pwm_duty_cycle > 80) :
    bonenixie_start info = { ret := -EINVAL, info := info, pwm_config := none } := by
  unfold bonenixie_start
  rw [if_neg (by simp [hrun])]
  by_cases hf : info.pwm_frequency < 1000 ∨ info.pwm_frequency > 50000
  · rw [if_pos hf]
  · rw [if_neg hf, if_pos]
    rcases h with h | h | h
    · exact absurd (Or.inl h) hf
    · exact absurd (Or.inr h) hf
    · exact h

/-- The parameters that `bonenixie_start` accepts: the period is
`10^9 div pwm_frequency`, between 20000 and 1000000, and with a duty cycle
that is not negative the product stays in the `int` range and the duty
between 0 and 80 percent of the period. -/
theorem bonenixie_start_accepted (info : bone_nixie_info) (hrun : info.run = 0)
    (hf0 : 1000 ≤ info.pwm_frequency) (hf1 : info.pwm_frequency ≤ 50000)
    (hd : info.pwm_duty_cycle ≤ 80) :
    ∃ duty period, bonenixie_start info
        = { ret := 0, info := { info with run := 1 }, pwm_config := some (duty, period) } ∧
      period = 1000000000 / info.pwm_frequency ∧ 20000 ≤ period ∧ period ≤ 1000000 ∧
      (0 ≤ info.pwm_duty_cycle →
        period * info.pwm_duty_cycle < 2 ^ 31 ∧ -(2 ^ 31) ≤ period * info.pwm_duty_cycle ∧
        0 ≤ duty ∧ duty ≤ 80 * period / 100) := by
  have hn0 : 1000 ≤ info.pwm_frequency.toNat := by
    rw [Int.le_toNat (by omega)]; exact hf0
  have hn1 : info.pwm_frequency.toNat ≤ 50000 := by
    have : info.pwm_frequency.toNat < 50001 := by
      rw [Int.toNat_lt (by omega)]; omega
    omega
  have hq0 : 20000 ≤ 1000000000 / info.pwm_frequency.toNat := by
    rw [Nat.le_div_iff_mul_le (by omega)]
    omega
  have hq1 : 1000000000 / info.pwm_frequency.toNat ≤ 1000000 := by
    apply Nat.div_le_of_le_mul
    omega
  have hperiod : int_of_u32 (1000000000 / u32_of_int info.pwm_frequency)
      = ((1000000000 / info.pwm_frequency.toNat : Nat) : Int) := by
    rw [u32_of_int_of_nonneg _ (by omega) (by omega), int_of_u32_of_lt _ (by omega)]
  have hcast : ((1000000000 / info.pwm_frequency.toNat : Nat) : Int)
      = 1000000000 / info.pwm_frequency := by
    rw [Int.ofNat_ediv, Int.toNat_of_nonneg (by omega)]
    rfl
  refine ⟨(wrap_int32 (((1000000000 / info.pwm_frequency.toNat : Nat) : Int)
      * info.pwm_duty_cycle)).tdiv 100, ((1000000000 / info.pwm_frequency.toNat : Nat) : Int),
    ?_, hcast, by omega, by omega, ?_⟩
  · unfold bonenixie_start
    rw [if_neg (by simp [hrun]), if_neg (by omega), if_neg (by omega)]
    simp only [hperiod]
  · intro hd0
    have hprod0 : 0 ≤ ((1000000000 / info.pwm_frequency.toNat : Nat) : Int)
        * info.pwm_duty_cycle := Int.mul_nonneg (by omega) hd0
    have hprod1 : ((1000000000 / info.pwm_frequency.toNat : Nat) : Int) * info.pwm_duty_cycle
        ≤ ((1000000000 / info.pwm_frequency.toNat : Nat) : Int) * 80 :=
      Int.mul_le_mul_of_nonneg_left hd (by omega)
    have hprod2 : ((1000000000 / info.pwm_frequency.toNat : Nat) : Int) * info.pwm_duty_cycle
        < 2 ^ 31 := by omega
    rw [wrap_int32_of_range _ hprod0 hprod2, Int.tdiv_eq_ediv hprod0 (by decide)]
    refine ⟨hprod2, by omega, Int.ediv_nonneg hprod0 (by decide), ?_⟩
    apply Int.ediv_le_ediv (by decide)
    omega

/-! ## The claims -/

/-- C2: with all pins below 31, NUL behind the input and at most `max_digits`
glyph characters, the frame buffer after `bonespivfd_store_display` holds at
index `j` the word of the `j`-th glyph character from the right, with the
period flag set exactly when a period stands between it and the next glyph
character to its right; a period in front of the leftmost glyph character
gives the period glyph at the next index when that is below `max_digits`; the
other entries of the frame buffer are 0. -/
theorem C2_store_display_frame (info : bonespivfd_info) (s : List Nat)
    (hp : pins_below info 31) (hk : count_glyphs s ≤ info.max_digits) :
    (∀ a c m b, s = a ++ c :: (m ++ b) → c ∈ glyph_chars →
        (∀ x, x ∈ m → x ∉ glyph_chars) → (∀ x, b.head? = some x → x ∈ glyph_chars) →
        (bonespivfd_store_display info s 0).buf (count_glyphs b) =
          char_to_segment info (count_glyphs b) (nixie_value_array.indexOf c)
            (if 46 ∈ m then 1 else 0)) ∧
    (46 ∈ leading_chars s → count_glyphs s < info.max_digits →
        (bonespivfd_store_display info s 0).buf (count_glyphs s) =
          char_to_segment info (count_glyphs s) (nixie_value_array.indexOf 46) 0) ∧
    (∀ j, count_glyphs s ≤ j → j < info.max_digits →
        ¬ (j = count_glyphs s ∧ 46 ∈ leading_chars s) →
        (bonespivfd_store_display info s 0).buf j = 0) :=
  store_display_frame info s hp hk

/-- Witness of C2 on the worked example: writing "12.3" on four digits
leaves the words 0x14F, 0x2DB, 0x406 and 0, the second one being the glyph of
'2' with the decimal point. -/
theorem C2_store_display_frame_witness :
    pins_below example_info 31 ∧
    count_glyphs (bytes "12.3") ≤ example_info.max_digits ∧
    (bonespivfd_store_display example_info (bytes "12.3") 0).buf 1
      = char_to_segment example_info 1 2 1 ∧
    (List.range 4).map (bonespivfd_store_display example_info (bytes "12.3") 0).buf
      = [0x14F, 0x2DB, 0x406, 0] :=
  ⟨example_info_pins_below, by decide,
    (C2_store_display_frame example_info (bytes "12.3") example_info_pins_below
      (by decide)).1 [49] 50 [46] [51] (by decide) (by decide) (by decide) (by decide),
    by decide⟩

/-- C3, as the code has it: with pairwise distinct segment pins below 32
that differ from the pin of digit `d`, and that pin below 32 too, the segment
mask read back from the word `char_to_segment(d, idx, p)` is the glyph `idx`,
with `SEG_H` when `p` is set, restricted to `digits_mask[d]` and to the low
eight bits, whatever the machine gives for a shift by 32 or more; with a mask
that leaves out `SEG_G` the glyph of '2' reads back without G, as A|B|D|E when
the mask is 0xFF without G. -/
theorem C3_segment_readback (over : Nat → Nat) (info : bonespivfd_info) (d idx p : Nat)
    (hseg : segments_distinct_below info 32)
    (hdlt : info.digits_cache d < 32)
    (hdig : ∀ i, i < SEGMENT_COUNT → info.segments_cache i ≠ info.digits_cache d)
    (_hd : d < info.max_digits) (_hidx : idx < 13) :
    segment_mask_with over (set_buf info d (char_to_segment_with over info d idx p)) d
      = (nixie_segment_values.getD idx 0 ||| (if p ≠ 0 then SEG_H else 0)) &&&
          info.digits_mask d &&& 0xFF ∧
    (info.digits_mask d &&& SEG_G = 0 →
      segment_mask_with over (set_buf info d (char_to_segment_with over info d 2 0)) d
        &&& SEG_G = 0) ∧
    (info.digits_mask d = 0xFF - SEG_G →
      segment_mask_with over (set_buf info d (char_to_segment_with over info d 2 0)) d
        = SEG_A ||| SEG_B ||| SEG_D ||| SEG_E) := by
  have key : ∀ idx p,
      segment_mask_with over (set_buf info d (char_to_segment_with over info d idx p)) d
      = masked_glyph info d idx p &&& 0xFF := by
    intro idx p
    rw [segment_mask_with_eq over (set_buf info d (char_to_segment_with over info d idx p)) d
        (fun i hi => hseg.1 i hi),
      char_to_segment_with_eq over info d idx p hseg.1 hdlt]
    exact segment_mask_char_to_segment info _ d idx p d hseg hdig rfl (by simp [set_buf])
  refine ⟨key idx p, ?_, ?_⟩
  · intro hG
    rw [key 2 0]
    unfold masked_glyph
    rw [Nat.and_assoc, Nat.and_assoc, Nat.and_comm 0xFF SEG_G, ← Nat.and_assoc _ SEG_G, hG]
    simp
  · intro hmask
    rw [key 2 0]
    unfold masked_glyph
    rw [hmask]
    decide

/-- Witness of C3 as amended on the worked example: digit 1, glyph '2',
period set, on a processor that takes the shift count modulo 32. -/
theorem C3_segment_readback_witness :
    segment_mask_with shift_mod_32
        (set_buf example_info 1 (char_to_segment_with shift_mod_32 example_info 1 2 1)) 1
      = (nixie_segment_values.getD 2 0 ||| (if (1 : Nat) ≠ 0 then SEG_H else 0)) &&&
          example_info.digits_mask 1 &&& 0xFF :=
  (C3_segment_readback shift_mod_32 example_info 1 2 1
    (example_info_segments_distinct 32 (by decide)) (by decide)
    (by intro i hi; have : i < 8 := hi; simp only [example_info]; omega)
    (by decide) (by decide)).1

/-- C3 fails on the code: with the segments on pins 0..7 and digit 0 on pin
33, a processor that takes the shift count modulo 32 sets bit 1 for the digit,
the pin of segment B, and the glyph of '5', A|C|D|F|G, reads back with B
added. -/
theorem C3_segment_readback_counterexample :
    segments_distinct_below example_info_pin33 32 ∧
    (∀ i, i < SEGMENT_COUNT →
      example_info_pin33.segments_cache i ≠ example_info_pin33.digits_cache 0) ∧
    0 < example_info_pin33.max_digits ∧
    char_to_segment_with shift_mod_32 example_info_pin33 0 5 0 = 0x6F ∧
    segment_mask_with shift_mod_32
        (set_buf example_info_pin33 0 (char_to_segment_with shift_mod_32 example_info_pin33 0 5 0))
        0 = 0x6F ∧
    (nixie_segment_values.getD 5 0 ||| (if (0 : Nat) ≠ 0 then SEG_H else 0)) &&&
        example_info_pin33.digits_mask 0 &&& 0xFF = 0x6D := by
  refine ⟨?_, ?_, by decide, by decide, by decide, by decide⟩
  · constructor
    · intro i hi
      have : i < 8 := hi
      simp only [example_info_pin33, example_info]
      omega
    · intro i j _ _ h
      simpa [example_info_pin33, example_info] using h
  · intro i hi
    have : i < 8 := hi
    simp only [example_info_pin33, example_info]
    omega

/-- C4: when no bus write fails, one run of `spi_display_update` sends
`max_digits + 1` buffers of four bytes; buffer `i` holds the word `buf[i]`
most significant byte first and the last buffer is 00 00 00 00. -/
theorem C4_refresh_frames (info : bonespivfd_info) (spi_write : Nat → List Nat → Int)
    (hok : ∀ k data, spi_write k data = 0)
    (hbuf : ∀ i, i < info.max_digits → info.buf i < 2 ^ 32) :
    (spi_display_update info spi_write).frames.length = info.max_digits + 1 ∧
    (∀ f, f ∈ (spi_display_update info spi_write).frames → f.length = 4) ∧
    (∀ i, i < info.max_digits → ∃ b0 b1 b2 b3,
      (spi_display_update info spi_write).frames.getD i [] = [b0, b1, b2, b3] ∧
      b0 < 256 ∧ b1 < 256 ∧ b2 < 256 ∧ b3 < 256 ∧
      (b0 <<< 24) ||| (b1 <<< 16) ||| (b2 <<< 8) ||| b3 = info.buf i) ∧
    (spi_display_update info spi_write).frames.getD info.max_digits [] = [0, 0, 0, 0] := by
  have hfr : (spi_display_update info spi_write).frames
      = (List.range info.max_digits).map (fun k => frame_of_word (info.buf k))
        ++ [[0, 0, 0, 0]] := by
    unfold spi_display_update
    rw [update_loop_ok info spi_write hok]
    simp [hok]
  rw [hfr]
  refine ⟨by simp, ?_, ?_, ?_⟩
  · intro f hf
    rw [List.mem_append] at hf
    rcases hf with hf | hf
    · rw [List.mem_map] at hf
      obtain ⟨k, -, rfl⟩ := hf
      rfl
    · rw [List.mem_singleton] at hf
      rw [hf]
      rfl
  · intro i hi
    have hget : ((List.range info.max_digits).map (fun k => frame_of_word (info.buf k))
        ++ [[0, 0, 0, 0]]).getD i [] = frame_of_word (info.buf i) := by
      rw [List.getD_append _ _ _ _ (by simpa using hi)]
      rw [List.getD_eq_getElem _ _ (by simpa using hi)]
      simp
    have hb : ∀ x : Nat, x &&& 0xff < 256 := fun x => Nat.lt_succ_of_le Nat.and_le_right
    exact ⟨_, _, _, _, hget, hb _, hb _, hb _, hb _, frame_of_word_value _ (hbuf i hi)⟩
  · rw [List.getD_append_right _ _ _ _ (by simp)]
    simp

/-- Witness of C4: the refresh after writing "12.3" on the example. -/
theorem C4_refresh_frames_witness :
    (spi_display_update (bonespivfd_store_display example_info (bytes "12.3") 0)
      (fun _ _ => 0)).frames.length = 4 + 1 :=
  (C4_refresh_frames (bonespivfd_store_display example_info (bytes "12.3") 0) (fun _ _ => 0)
    (fun _ _ => rfl) (by decide)).1

/-- C5, the code at an input with more characters than digits: writing
"12345" on the four-digit example stores the word of '1' at index 4, behind
the `max_digits` words of the frame buffer, and ".1234" stores the period
glyph there. -/
theorem C5_store_writes_past_end :
    example_info.max_digits = 4 ∧ example_info.buf 4 = 0 ∧
    (bonespivfd_store_display example_info (bytes "12345") 0).buf 4 = 0x1006 ∧
    (bonespivfd_store_display example_info (bytes ".1234") 0).buf 4 = 0x1080 := by
  decide

/-- C6, as the code has it: with at least two digits ".5" reads back ".5\n",
the period in a digit of its own in front of the 5. -/
theorem C6_leading_period_readback (ro : rodata) (info : bonespivfd_info)
    (hcfg : roundtrip_config info) (hmax : 2 ≤ info.max_digits) :
    bonespivfd_show_display ro (bonespivfd_store_display info (bytes ".5") 0) []
      = bytes ".5\n" :=
  show_store_period_glyphs ro info (bytes "5") hcfg (by decide) hmax

/-- Witness of C6 as amended on the four-digit example. -/
theorem C6_leading_period_readback_witness :
    bonespivfd_show_display zero_rodata
        (bonespivfd_store_display example_info (bytes ".5") 0) [] = bytes ".5\n" :=
  C6_leading_period_readback zero_rodata example_info example_info_roundtrip (by decide)

/-- C6 fails on the code: on the four-digit example ".5" reads back ".5\n"
and not "5.\n". -/
theorem C6_leading_period_counterexample :
    roundtrip_config example_info ∧
    2 ≤ example_info.max_digits ∧
    bonespivfd_show_display zero_rodata
        (bonespivfd_store_display example_info (bytes ".5") 0) [] = bytes ".5\n" ∧
    bonespivfd_show_display zero_rodata
        (bonespivfd_store_display example_info (bytes ".5") 0) [] ≠ bytes "5.\n" :=
  ⟨example_info_roundtrip, by decide⟩

/-- C7: `bonespivfd_store_display` leaves the same device state for an input
as for the input with every character outside the 13-character alphabet
deleted; "5x3" and "53" give identical frame buffers. -/
theorem C7_store_ignores_unknown (info : bonespivfd_info) (s : List Nat) (last : Nat) :
    bonespivfd_store_display info s last
      = bonespivfd_store_display info (s.filter (fun c => decide (c ∈ alphabet))) last ∧
    (bonespivfd_store_display info (bytes "5x3") 0).buf
      = (bonespivfd_store_display info (bytes "53") 0).buf := by
  have key : ∀ s last, bonespivfd_store_display info s last
      = bonespivfd_store_display info (s.filter (fun c => decide (c ∈ alphabet))) last := by
    intro s last
    have hscan : store_scan info (s.filter (fun c => decide (c ∈ alphabet)) ++ [last]).reverse
        { digit := 0, period := 0, buf := memset_buf info }
        = store_scan info (s ++ [last]).reverse
        { digit := 0, period := 0, buf := memset_buf info } := by
      rw [List.reverse_append, List.reverse_append, List.reverse_singleton,
        List.singleton_append, List.singleton_append, store_scan_cons, store_scan_cons,
        ← List.filter_reverse, store_scan_filter]
    unfold bonespivfd_store_display
    rw [hscan]
  refine ⟨key s last, ?_⟩
  rw [key (bytes "5x3") 0]
  have : (bytes "5x3").filter (fun c => decide (c ∈ alphabet)) = bytes "53" := by decide
  rw [this]

/-- C8, the code on the example node: the probe succeeds with
`max_digits = 4` while the allocation installed as `info->buf` has size 0;
whatever the kernel answers, that allocation never has any byte. -/
theorem C8_probe_buffer_size :
    (bonespivfd_probe example_env).ret = 0 ∧
    (bonespivfd_probe example_env).info.map (fun info => info.max_digits) = some 4 ∧
    (bonespivfd_probe example_env).buf_bytes = 0 ∧
    ∀ env, (bonespivfd_probe env).buf_bytes = 0 := by
  refine ⟨by decide, by decide, by decide, ?_⟩
  intro env
  unfold bonespivfd_probe
  split_ifs
  · rfl
  · rfl
  · rfl
  · rfl
  · cases bonespivfd_parse_dt env <;> rfl

/-- C9, the code on a '2' stored without segment G: the decoded mask A|B|D|E
is none of the 13 glyph masks, and what `segment_to_char` appends depends on
the words behind the table: the letter found at index 14 when the word there
is A|B|D|E, nothing when the words are 0. -/
theorem C9_glyph_search_past_table :
    segment_mask (bonespivfd_store_display example_info_no_G (bytes "2") 0) 0
      = SEG_A ||| SEG_B ||| SEG_D ||| SEG_E ∧
    SEG_A ||| SEG_B ||| SEG_D ||| SEG_E ∉ nixie_segment_values ∧
    segment_to_char example_rodata
      (bonespivfd_store_display example_info_no_G (bytes "2") 0) [] 0 = bytes "X" ∧
    segment_to_char zero_rodata
      (bonespivfd_store_display example_info_no_G (bytes "2") 0) [] 0 = [] := by
  decide

/-- C10, as the code has it: with at least one digit, a single character of
the alphabet other than the space is read back followed by "\n"; the space
is read back as "\n" alone. -/
theorem C10_single_character_readback (ro : rodata) (info : bonespivfd_info) (c : Nat)
    (hcfg : roundtrip_config info) (hmax : 1 ≤ info.max_digits) (hc : c ∈ alphabet) :
    bonespivfd_show_display ro (bonespivfd_store_display info [c] 0) []
      = (if c = ' '.toNat then [] else [c]) ++ bytes "\n" := by
  rw [space_code]
  rcases (mem_alphabet_iff c).1 hc with hg | hp
  · rw [show_store_glyphs ro info [c] hcfg (by simpa using hg) (by simpa using hmax)]
    by_cases h32 : c = 32 <;> simp [h32]
  · subst hp
    exact show_store_period_glyphs ro info [] hcfg (by simp) (by simpa using hmax)

/-- Witness of C10 as amended: the character '7' on the example. -/
theorem C10_single_character_readback_witness :
    bonespivfd_show_display zero_rodata
        (bonespivfd_store_display example_info [55] 0) []
      = (if 55 = ' '.toNat then [] else [55]) ++ bytes "\n" :=
  C10_single_character_readback zero_rodata example_info 55 example_info_roundtrip
    (by decide) (by decide)

/-- C10 fails on the code: on the four-digit example the space reads back as
"\n", not as " \n". -/
theorem C10_single_character_counterexample :
    roundtrip_config example_info ∧
    ' '.toNat ∈ alphabet ∧ 1 ≤ example_info.max_digits ∧
    bonespivfd_show_display zero_rodata
        (bonespivfd_store_display example_info [' '.toNat] 0) [] = bytes "\n" ∧
    bonespivfd_show_display zero_rodata
        (bonespivfd_store_display example_info [' '.toNat] 0) [] ≠ bytes " \n" :=
  ⟨example_info_roundtrip, by decide⟩

/-- C11, as the code has it: `bonespivfd_parse_dt` returns 0 if and only if
the node and the three tables are present, `segments-idx` has 8 cells and is
readable, `digits-mask` has as many cells as `digits-idx` and is readable,
`digits-idx` is readable when it has a cell, and every allocation made
succeeds; otherwise it returns a negative error number. On success
`max_digits` is the number of cells of `digits-idx` and `refresh_rate` is 150
without the property and the property when it is below 2^31. -/
theorem C11_parse_dt_result (env : probe_env) :
    (bonespivfd_parse_dt_ret env = 0 ↔ parse_dt_accepts env) ∧
    (¬ parse_dt_accepts env → bonespivfd_parse_dt_ret env < 0) ∧
    (∀ info, bonespivfd_parse_dt env = .ok info →
      ∃ np di, env.np = some np ∧ np.digits_idx = some di ∧
        info.max_digits = di.length / 4 ∧
        (np.refresh_rate = none → info.refresh_rate = 150) ∧
        (∀ v, np.refresh_rate = some v → v < 2 ^ 31 → info.refresh_rate = v)) := by
  refine ⟨parse_dt_ret_zero_iff env, ?_, ?_⟩
  · intro hno
    unfold bonespivfd_parse_dt_ret
    cases hr : bonespivfd_parse_dt env with
    | ok info => exact absurd (parse_dt_ok_accepts env info hr).1 hno
    | error e => exact parse_dt_error_neg env e hr
  · intro info hinfo
    obtain ⟨-, np, di, hnp, hdi, hmax, hrate⟩ := parse_dt_ok_accepts env info hinfo
    refine ⟨np, di, hnp, hdi, hmax, ?_, ?_⟩
    · intro hnone
      rw [hrate, hnone]
      rfl
    · intro v hv hlt
      rw [hrate, hv]
      exact int_of_u32_of_lt v hlt

/-- C11 fails on the code: on the example node, with every table present
and readable, a failing allocation of `digits_cache` makes
`bonespivfd_parse_dt` return -ENOMEM; and a node whose `digits-idx` has no cell
and cannot be read is accepted. -/
theorem C11_parse_dt_counterexample :
    dt_well_formed example_env_nomem ∧
    bonespivfd_parse_dt_ret example_env_nomem = -ENOMEM ∧
    ¬ dt_well_formed example_env_empty ∧
    bonespivfd_parse_dt_ret example_env_empty = 0 := by
  refine ⟨?_, by decide, ?_, by decide⟩
  · exact ⟨example_node, _, _, _, rfl, rfl, rfl, rfl, by decide, by decide, by decide,
      by decide, by decide⟩
  · rintro ⟨np, di, si, dm, hnp, hdi, -, -, hread, -⟩
    have h1 : np = empty_digits_node := by
      have : some empty_digits_node = some np := hnp
      exact (Option.some.inj this).symm
    subst h1
    have h2 : di = { length := 0, read_ret := -61, cells := fun _ => 0 } := by
      have : some ({ length := 0, read_ret := -61, cells := fun _ => 0 } : property) = some di := hdi
      exact (Option.some.inj this).symm
    subst h2
    exact absurd hread (by decide)

/-- C12: in one run of `spi_display_update`, when the write of frame `k` is
the first to fail exactly the frames `0`, ..., `k` are handed to `spi_write`
and the work is not scheduled again; it is scheduled again, after
`refresh_rate`, exactly when all `max_digits + 1` writes succeed; the device
state is the same after the run. -/
theorem C12_refresh_stops_at_failure (info : bonespivfd_info)
    (spi_write : Nat → List Nat → Int) :
    (∀ k, k ≤ info.max_digits →
      (∀ j, j < k → spi_write j ((all_frames info).getD j []) = 0) →
      spi_write k ((all_frames info).getD k []) ≠ 0 →
      (spi_display_update info spi_write).frames = (all_frames info).take (k + 1) ∧
      (spi_display_update info spi_write).rescheduled = none) ∧
    ((spi_display_update info spi_write).rescheduled = some info.refresh_rate ↔
      ∀ j, j ≤ info.max_digits → spi_write j ((all_frames info).getD j []) = 0) ∧
    ((spi_display_update info spi_write).rescheduled ≠ none ↔
      ∀ j, j ≤ info.max_digits → spi_write j ((all_frames info).getD j []) = 0) ∧
    (spi_display_update_call info spi_write).1 = info := by
  have hfail : ¬ (∀ j, j ≤ info.max_digits → spi_write j ((all_frames info).getD j []) = 0) →
      (spi_display_update info spi_write).rescheduled = none := by
    intro hno
    have hex : ∃ k, k ≤ info.max_digits ∧ spi_write k ((all_frames info).getD k []) ≠ 0 := by
      by_contra hcon
      apply hno
      intro j hj
      by_contra hne
      exact hcon ⟨j, hj, hne⟩
    obtain ⟨hk, hne⟩ := Nat.find_spec hex
    refine (update_first_failure info spi_write (Nat.find hex) hk ?_ hne).2
    intro j hj
    by_contra hj0
    exact Nat.find_min hex hj ⟨by omega, hj0⟩
  refine ⟨fun k hk hok hf => update_first_failure info spi_write k hk hok hf, ?_, ?_, rfl⟩
  · constructor
    · intro hsome
      by_contra hno
      rw [hfail hno] at hsome
      exact Option.noConfusion hsome
    · exact fun hall => (update_all_ok info spi_write hall).2
  · constructor
    · intro hsome
      by_contra hno
      exact hsome (hfail hno)
    · intro hall
      rw [(update_all_ok info spi_write hall).2]
      exact fun h => Option.noConfusion h

/-- Witness of C12: on the example, with the second write failing, two frames
are handed over and the work is not scheduled again. -/
theorem C12_refresh_stops_at_failure_witness :
    (spi_display_update example_info (fun k _ => if k = 1 then -5 else 0)).frames
        = (all_frames example_info).take (1 + 1) ∧
    (spi_display_update example_info (fun k _ => if k = 1 then -5 else 0)).rescheduled = none :=
  (C12_refresh_stops_at_failure example_info (fun k _ => if k = 1 then -5 else 0)).1 1
    (by decide) (by intro j hj; have : j = 0 := by omega
                    subst this; rfl) (by decide)

/-- C13: a digit whose decoded segment mask is `SEG_H` alone, the space with
the decimal point, makes `segment_to_char` append the period and nothing
else. -/
theorem C13_space_with_period (ro : rodata) (info : bonespivfd_info) (buf : List Nat)
    (idx : Nat) (_hseg : segments_distinct_below info 32)
    (hm : segment_mask info idx = SEG_H) :
    segment_to_char ro info buf idx = buf ++ bytes "." :=
  segment_to_char_glyph ro info buf idx 12 1 (by decide) (by rw [hm]; decide)

/-- Witness of C13: the word of the space with the period flag on digit 0 of
the example. -/
theorem C13_space_with_period_witness :
    segment_to_char zero_rodata
        (set_buf example_info 0 (char_to_segment example_info 0 12 1)) (bytes "7") 0
      = bytes "7" ++ bytes "." :=
  C13_space_with_period zero_rodata _ (bytes "7") 0
    (example_info_segments_distinct 32 (by decide)) (by decide)

/-- C14: with all pins below 32 the word `char_to_segment(d, idx, p)` has the
bit of the digit pin set, and its set bits are exactly that bit and the bits
`segments_cache[i]` of the segments `i` set in the glyph, with `SEG_H` when
`p` is set, restricted to `digits_mask[d]`. -/
theorem C14_char_to_segment_bits (info : bonespivfd_info) (d idx p : Nat)
    (hp : pins_below info 32) (hd : d < info.max_digits) (_hidx : idx < 13) :
    (char_to_segment info d idx p).testBit (info.digits_cache d) = true ∧
    ∀ b, (char_to_segment info d idx p).testBit b = true ↔
      (b = info.digits_cache d ∨
        ∃ i, i < 8 ∧
          ((nixie_segment_values.getD idx 0 ||| (if p ≠ 0 then SEG_H else 0)) &&&
            info.digits_mask d).testBit i = true ∧
          info.segments_cache i = b) := by
  have hbits : ∀ b, (char_to_segment info d idx p).testBit b = true ↔
      (b = info.digits_cache d ∨
        ∃ i, i < 8 ∧ (masked_glyph info d idx p).testBit i = true ∧
          info.segments_cache i = b) := by
    intro b
    rw [char_to_segment_eq, Nat.testBit_or, testBit_encode_fold, testBit_shl1]
    simp only [Nat.zero_testBit, Bool.false_or, Bool.or_eq_true, List.any_eq_true,
      List.mem_range, Bool.and_eq_true, decide_eq_true_eq, testBit_shl1, SEGMENT_COUNT]
    constructor
    · rintro (⟨i, hi, hbit, -, he⟩ | ⟨-, he⟩)
      · exact Or.inr ⟨i, hi, hbit, he⟩
      · exact Or.inl he.symm
    · rintro (he | ⟨i, hi, hbit, he⟩)
      · right
        have := hp.2 d hd
        exact ⟨by omega, he.symm⟩
      · left
        have := hp.1 i hi
        exact ⟨i, hi, hbit, by omega, he⟩
  exact ⟨(hbits _).2 (Or.inl rfl), hbits⟩

/-- Witness of C14: digit 1 of the example, glyph '2' with the period. -/
theorem C14_char_to_segment_bits_witness :
    (char_to_segment example_info 1 2 1).testBit (example_info.digits_cache 1) = true :=
  (C14_char_to_segment_bits example_info 1 2 1
    ⟨(example_info_segments_distinct 32 (by decide)).1,
      fun d hd => Nat.lt_trans (example_info_pins_below.2 d hd) (by decide)⟩
    (by decide) (by decide)).1

/-- C15: for a character of the alphabet `is_valid_value` returns its index
in `nixie_value_array`, below 13, which is the row of its segment pattern in
`nixie_segment_values`; for every other byte, NUL included, it returns
`-EINVAL`. -/
theorem C15_is_valid_value (c : Nat) :
    (c ∈ alphabet → ∃ i : Nat, is_valid_value c = (i : Int) ∧ i < 13 ∧
      nixie_value_array.getD i 0 = c ∧ nixie_segment_values.getD i 0 = glyph_of_char c) ∧
    (c ∉ alphabet → is_valid_value c = -EINVAL) ∧
    is_valid_value 0 = -EINVAL ∧ -EINVAL < 0 := by
  refine ⟨?_, is_valid_value_of_not_mem c, by decide, by decide⟩
  intro h
  refine ⟨nixie_value_array.indexOf c, is_valid_value_of_mem c h, ?_⟩
  rw [alphabet_eq] at h
  simp only [List.mem_cons, List.mem_singleton, List.mem_nil_iff, or_false] at h
  rcases h with h | h | h | h | h | h | h | h | h | h | h | h | h <;> subst h <;> decide

/-- C16: `bonespivfd_show_display` on an empty buffer leaves the texts of the
digits `max_digits - 1`, ..., `0` in that order followed by one "\n", returns
the length of that text and leaves the device state alone. -/
theorem C16_show_display_text (ro : rodata) (info : bonespivfd_info) :
    (bonespivfd_show_display_call ro info []).buf
      = (List.range info.max_digits).reverse.flatMap (fun j => segment_to_char ro info [] j)
        ++ bytes "\n" ∧
    (bonespivfd_show_display_call ro info []).ret
      = ((List.range info.max_digits).reverse.flatMap (fun j => segment_to_char ro info [] j)
        ++ bytes "\n").length ∧
    (bonespivfd_show_display_call ro info []).info = info := by
  have h : bonespivfd_show_display ro info []
      = (List.range info.max_digits).reverse.flatMap (fun j => segment_to_char ro info [] j)
        ++ bytes "\n" := by
    unfold bonespivfd_show_display
    rw [show_loop_eq, List.nil_append]
  unfold bonespivfd_show_display_call
  simp only [h, and_self]

/-- C17: the frame buffer `bonespivfd_store_display` leaves does not depend on
what the frame buffer held before; every entry above the number of glyph
characters scanned is 0, and so is every entry the function does not store
at. -/
theorem C17_store_overwrites (info : bonespivfd_info) (b1 b2 : Nat → Nat) (s : List Nat)
    (last : Nat) (_hcount : s.countP (fun c => decide (c ∈ alphabet)) ≤ info.max_digits) :
    (∀ j, j < info.max_digits →
      (bonespivfd_store_display (with_buf info b1) s last).buf j
        = (bonespivfd_store_display (with_buf info b2) s last).buf j) ∧
    (∀ j, j < info.max_digits → count_glyphs (s ++ [last]) < j →
      (bonespivfd_store_display (with_buf info b1) s last).buf j = 0) ∧
    (∀ j, j < info.max_digits → j ∉ store_display_writes (with_buf info b1) s last →
      (bonespivfd_store_display (with_buf info b1) s last).buf j = 0) := by
  have hinit : ∀ (b : Nat → Nat) j, j < info.max_digits →
      (store_init (with_buf info b)).buf j = 0 := by
    intro b j hj
    have hj1 : j < (with_buf info b).max_digits := hj
    simp [store_init, memset_buf, hj1]
  refine ⟨?_, ?_, ?_⟩
  · intro j hj
    rw [store_display_buf, store_display_buf, store_scan_with_buf, store_scan_with_buf,
      char_to_segment_with_buf, char_to_segment_with_buf]
    have h := store_scan_indep info (last :: s.reverse) (store_init (with_buf info b1))
      (store_init (with_buf info b2)) j rfl rfl (by rw [hinit b1 j hj, hinit b2 j hj])
    rw [h.1, h.2.1, h.2.2]
  · intro j hj hcount
    have hc : count_glyphs (last :: s.reverse) = count_glyphs (s ++ [last]) := by
      rw [count_glyphs_cons, count_glyphs_reverse, count_glyphs_append, count_glyphs_cons]
      have : count_glyphs [] = 0 := rfl
      rw [this, Nat.zero_add]
    have hup := store_scan_upper info (last :: s.reverse) (store_init (with_buf info b1))
    rw [hc] at hup
    have hd0 : (store_init (with_buf info b1)).digit = 0 := rfl
    rw [hd0, Nat.zero_add] at hup
    rw [store_display_buf, store_scan_with_buf, if_neg, hup.2 j (le_of_lt hcount),
      hinit b1 j hj]
    rintro ⟨-, he⟩
    omega
  · intro j hj hw
    exact store_display_unwritten (with_buf info b1) s last j hj hw

/-- Witness of C17: "12.3" on the example over a frame buffer full of 0xFFFF
stores at the indices 0, 1 and 2, leaves 0 at index 3, and leaves at index 2
what it leaves over a zero frame buffer. -/
theorem C17_store_overwrites_witness :
    store_display_writes (with_buf example_info (fun _ => 0xFFFF)) (bytes "12.3") 0
      = [0, 1, 2] ∧
    (bonespivfd_store_display (with_buf example_info (fun _ => 0xFFFF)) (bytes "12.3") 0).buf 3
      = 0 ∧
    (bonespivfd_store_display (with_buf example_info (fun _ => 0xFFFF)) (bytes "12.3") 0).buf 2
      = (bonespivfd_store_display (with_buf example_info (fun _ => 0)) (bytes "12.3") 0).buf 2 :=
  ⟨by decide,
    (C17_store_overwrites example_info (fun _ => 0xFFFF) (fun _ => 0) (bytes "12.3") 0
      (by decide)).2.2 3 (by decide) (by decide),
    (C17_store_overwrites example_info (fun _ => 0xFFFF) (fun _ => 0) (bytes "12.3") 0
      (by decide)).1 2 (by decide)⟩

/-- C18: the scan of `bonespivfd_store_display` reads the byte at index
`count`; when that byte is no character of the alphabet the device state is
the one the scan over the indices `count - 1`, ..., `0` leaves. -/
theorem C18_scan_from_count (info : bonespivfd_info) (s : List Nat) (last : Nat)
    (h : last ∉ alphabet) :
    bonespivfd_store_display info s last = store_display_bounded info s ∧
    (bonespivfd_store_display example_info (bytes "1") '2'.toNat).buf 0
      ≠ (store_display_bounded example_info (bytes "1")).buf 0 :=
  ⟨store_display_eq_bounded info s last h, by decide⟩

/-- Witness of C18: "12.3" on the example with NUL at index `count`. -/
theorem C18_scan_from_count_witness :
    bonespivfd_store_display example_info (bytes "12.3") 0
      = store_display_bounded example_info (bytes "12.3") :=
  (C18_scan_from_count example_info (bytes "12.3") 0 nul_not_alphabet).1

/-- C19, the code with segment G on pin 31 and every other pin below 31: the
word of '2' has the sign bit set, so "12" leaves the word of '1' at index 0
and nothing at index 1, and in "1.2" the period meant for the '2' ends up on
the '1'. -/
theorem C19_sign_bit_skip :
    (∀ i, i < 8 → example_info_G31.segments_cache i < 32) ∧
    (∀ d, d < 4 → example_info_G31.digits_cache d < 32) ∧
    2 ^ 31 ≤ char_to_segment example_info_G31 0 2 0 ∧
    (List.range 4).map (bonespivfd_store_display example_info_G31 (bytes "12") 0).buf
      = [char_to_segment example_info_G31 0 1 0, 0, 0, 0] ∧
    (List.range 4).map (bonespivfd_store_display example_info_G31 (bytes "1.2") 0).buf
      = [char_to_segment example_info_G31 0 1 1, 0, 0, 0] := by
  decide

/-- C20: the two static tables have 13 entries each, the 13 characters are
pairwise distinct and so are the 13 masks, and `SEG_H` is set in the mask of
the period only. -/
theorem C20_glyph_table :
    nixie_segment_values.length = 13 ∧
    sizeof_nixie_value_array - 1 = 13 ∧
    nixie_value_array.take 13 = alphabet ∧
    alphabet.Nodup ∧
    nixie_segment_values.Nodup ∧
    (∀ i, i < 13 → (nixie_segment_values.getD i 0 &&& SEG_H ≠ 0 ↔ i = 11)) ∧
    nixie_value_array.getD 11 0 = '.'.toNat := by
  decide

/-- C21, the code on a negative duty cycle: with `pwm-duty-cycle` read as
0xFFFFFFFF the `int` is -1, `bonenixie_start` passes its checks, hands the
duty -1081 to `pwm_config` and sets `run`; with 1000 Hz and the duty cycle
-65536 the product `period * pwm_duty_cycle` lies below the `int` range and
the tube is started all the same. -/
theorem C21_negative_duty_cycle :
    (bonenixie_probe_params none (some 0xFFFFFFFF)).pwm_frequency = 9250 ∧
    (bonenixie_probe_params none (some 0xFFFFFFFF)).pwm_duty_cycle = -1 ∧
    (bonenixie_start (bonenixie_probe_params none (some 0xFFFFFFFF))).ret = 0 ∧
    (bonenixie_start (bonenixie_probe_params none (some 0xFFFFFFFF))).info.run = 1 ∧
    (bonenixie_start (bonenixie_probe_params none (some 0xFFFFFFFF))).pwm_config
      = some (-1081, 108108) ∧
    (bonenixie_probe_params (some 1000) (some 0xFFFF0000)).pwm_duty_cycle = -65536 ∧
    (bonenixie_start (bonenixie_probe_params (some 1000) (some 0xFFFF0000))).ret = 0 ∧
    (bonenixie_start (bonenixie_probe_params (some 1000) (some 0xFFFF0000))).info.run = 1 ∧
    (bonenixie_start (bonenixie_probe_params (some 1000) (some 0xFFFF0000))).pwm_config
      = some (-11114905, 1000000) ∧
    (1000000 : Int) * (-65536) < -(2 ^ 31) := by
  decide

end BoneSpiVfd
